import Mathlib

/-!
Verification of the BOLTS parameter-resolution engine
(`bolttools/common.py`) against its specification.

The Python source is shallowly embedded:

* Python floats produced by `float(...)` on decimal literals are modelled
  exactly by `Dec`, a scaled-integer decimal (`num / 10 ^ exp`); every
  decimal literal appearing in the code's domain is representable exactly,
  and the order comparisons performed by the code (`< 0`, `> 360`,
  sort-key comparisons) agree with the float comparisons on such values.
  `parseDec` models `float()` restricted to decimal literals
  (optional sign, digits, at most one decimal point); the source never
  relies on exponent forms or `inf`/`nan`.
* Python dicts are modelled as association lists (`Dict`) whose lookup
  `find?` returns the first binding; Python dict keys are unique, so
  where duplicate keys would make a difference the theorems carry
  `Nodup` hypotheses.  Python's unspecified `dict`/`set` iteration order
  is modelled by the list order of the embedding; all universally
  quantified theorems below are stated order-insensitively
  (membership / permutation / pairwise-sortedness).
* `sorted(...)` (CPython's stable sort) is modelled by a stable insertion
  sort `insertionSort`.
* Exceptions are modelled by `Except BErr`.
-/

/-- Exact decimal number `num / 10 ^ exp`, modelling the Python floats the
code builds with `float()` from decimal literals. -/
structure Dec where
  num : Int
  exp : Nat
deriving DecidableEq, Repr

def pow10 : Nat → Int
  | 0 => 1
  | n + 1 => 10 * pow10 n

namespace Dec

/-- Numeric strict order on decimals (cross multiplication). -/
def blt (a b : Dec) : Bool := a.num * pow10 b.exp < b.num * pow10 a.exp

/-- Numeric non-strict order on decimals. -/
def ble (a b : Dec) : Bool := a.num * pow10 b.exp ≤ b.num * pow10 a.exp

/-- Numeric equality on decimals (Python `==` on floats). -/
def beqv (a b : Dec) : Bool := a.num * pow10 b.exp = b.num * pow10 a.exp

/-- Model of Python `math.fabs`. -/
def abs (a : Dec) : Dec := ⟨(a.num.natAbs : Int), a.exp⟩

def ofNat (n : Nat) : Dec := ⟨(n : Int), 0⟩

end Dec

/-- A typed parameter value, as produced by YAML parsing plus
`convert_raw_parameter_value`: Python `None`, floats, bools and strings. -/
inductive Value where
  | none
  | num (d : Dec)
  | bool (b : Bool)
  | str (s : String)
deriving DecidableEq, Repr

/-- Python `==` on values: floats compare numerically, `True == 1` and
`False == 0` hold (bool is an int subclass), everything else structurally;
values of unrelated types compare unequal. -/
def Value.eqv : Value → Value → Bool
  | .none, .none => true
  | .num a, .num b => a.beqv b
  | .bool a, .bool b => a == b
  | .str a, .str b => a == b
  | .bool a, .num b => Dec.beqv ⟨if a then 1 else 0, 0⟩ b
  | .num a, .bool b => Dec.beqv a ⟨if b then 1 else 0, 0⟩
  | _, _ => false

def digitVal (c : Char) : Nat := c.toNat - '0'.toNat

def digitsToNat (ds : List Char) : Nat := ds.foldl (fun a c => a * 10 + digitVal c) 0

/-- Model of Python `float()` on decimal literals: optional sign, an
integer part and/or a fractional part separated by at most one point
(`"1"`, `"-1.5"`, `"1."`, `".5"`); anything else fails (`ValueError`). -/
def parseDec (s : String) : Option Dec :=
  let cs := s.toList
  let signed : Bool × List Char :=
    match cs with
    | '-' :: rest => (true, rest)
    | '+' :: rest => (false, rest)
    | _ => (false, cs)
  let neg := signed.1
  let body := signed.2
  let ip := body.takeWhile Char.isDigit
  let rest := body.dropWhile Char.isDigit
  match rest with
  | [] =>
    if ip.isEmpty then Option.none
    else Option.some ⟨(if neg then -1 else 1) * (digitsToNat ip : Int), 0⟩
  | '.' :: fp =>
    if fp.all Char.isDigit && !(ip.isEmpty && fp.isEmpty) then
      Option.some ⟨(if neg then -1 else 1) *
        ((digitsToNat ip : Int) * pow10 fp.length + (digitsToNat fp : Int)), fp.length⟩
    else Option.none
  | _ => Option.none

/-- The errors the source raises, as a structured type. -/
inductive BErr where
  | unknownType (t : String)
  | valueError (msg : String)
  | missingType (p : String)
  | unknownParameter (p : String)
  | tableIndexType (p t : String)
  | nonFreeDefault (p : String)
  | invalidTableIndex (p : String) (v : Value)
  | keyError (k : String)
  | notCollected (p : String)
  | incompatibleType (p tA tB : String)
  | incompatibleDefault (p : String) (a b : Value)
  | incompatibleDescription (p a b : String)
deriving DecidableEq, Repr

instance exceptDecEq {eps alpha : Type} [DecidableEq eps] [DecidableEq alpha] :
    DecidableEq (Except eps alpha) := fun x y =>
  match x, y with
  | .ok a, .ok b =>
    if h : a = b then isTrue (by rw [h])
    else isFalse (fun hc => h (by injection hc))
  | .error e, .error f =>
    if h : e = f then isTrue (by rw [h])
    else isFalse (fun hc => h (by injection hc))
  | .ok _, .error _ => isFalse (fun hc => by injection hc)
  | .error _, .ok _ => isFalse (fun hc => by injection hc)

/-- `ALL_TYPES` from the source. -/
def ALL_TYPES : List String :=
  ["Length (mm)", "Length (in)", "Number", "Bool", "Table Index", "String", "Angle (deg)"]

/-- `convert_raw_parameter_value(pname, tname, value)` from the source:
convert a raw YAML string to a typed value and check conformity with the
BOLTS type `tname`. -/
def convert_raw_parameter_value (pname tname : String) (value : String) :
    Except BErr Value :=
  let numbers := ["Length (mm)", "Length (in)", "Number", "Angle (deg)"]
  let positive := ["Length (mm)", "Length (in)"]
  if ¬ tname ∈ ALL_TYPES then .error (.unknownType tname)
  else if value = "None" then .ok .none
  else if tname ∈ numbers then
    match parseDec value with
    | Option.none => .error (.valueError ("could not convert string to float: " ++ value))
    | Option.some d =>
      if tname ∈ positive ∧ d.blt ⟨0, 0⟩ then
        .error (.valueError ("Negative length in table for parameter " ++ pname))
      else if tname = "Angle (deg)" ∧ Dec.blt ⟨360, 0⟩ d.abs then
        .error (.valueError ("Angles must be 360 > alpha > -360: " ++ pname))
      else .ok (.num d)
  else if tname = "Bool" then
    if value = "true" then .ok (.bool true)
    else if value = "false" then .ok (.bool false)
    else .error (.valueError ("Unknown value for bool parameter " ++ pname))
  else .ok (.str value)

/-- C4: `convert_raw_parameter_value` converts the raw value `"None"` to a
null value for every declared type; for `Length (mm)`, `Length (in)`,
`Number` and `Angle (deg)` it parses the raw value as a float and fails for
every negative length and every angle of absolute value above 360 (and when
the float parse itself fails), otherwise returning the parsed number; the
boundary values 360 and -360 are accepted; for `Bool` only the literal
strings `"true"` and `"false"` are accepted; an unknown type name always
fails. -/
theorem c4_convert_raw_parameter_value :
    (∀ t ∈ ALL_TYPES, ∀ p, convert_raw_parameter_value p t "None" = .ok .none)
    ∧ (∀ t ∈ (["Length (mm)", "Length (in)", "Number", "Angle (deg)"] : List String),
        ∀ p v d, v ≠ "None" → parseDec v = Option.some d →
          ((t ∈ (["Length (mm)", "Length (in)"] : List String) → d.blt ⟨0, 0⟩ = true →
              ∃ m, convert_raw_parameter_value p t v = .error (.valueError m))
            ∧ (t = "Angle (deg)" → Dec.blt ⟨360, 0⟩ d.abs = true →
              ∃ m, convert_raw_parameter_value p t v = .error (.valueError m))
            ∧ (¬ (t ∈ (["Length (mm)", "Length (in)"] : List String) ∧ d.blt ⟨0, 0⟩ = true) →
               ¬ (t = "Angle (deg)" ∧ Dec.blt ⟨360, 0⟩ d.abs = true) →
              convert_raw_parameter_value p t v = .ok (.num d))))
    ∧ (∀ t ∈ (["Length (mm)", "Length (in)", "Number", "Angle (deg)"] : List String),
        ∀ p v, v ≠ "None" → parseDec v = Option.none →
          ∃ m, convert_raw_parameter_value p t v = .error (.valueError m))
    ∧ (convert_raw_parameter_value "a" "Angle (deg)" "360" = .ok (.num ⟨360, 0⟩)
        ∧ convert_raw_parameter_value "a" "Angle (deg)" "-360" = .ok (.num ⟨-360, 0⟩))
    ∧ (∀ p v x, v ≠ "None" →
        (convert_raw_parameter_value p "Bool" v = .ok x ↔
          (v = "true" ∧ x = .bool true) ∨ (v = "false" ∧ x = .bool false)))
    ∧ (∀ t, t ∉ ALL_TYPES → ∀ p v,
        convert_raw_parameter_value p t v = .error (.unknownType t)) := by
  refine ⟨?_, ?_, ?_, ?_, ?_, ?_⟩
  · intro t ht p
    fin_cases ht <;> rfl
  · intro t ht p v d hv hparse
    fin_cases ht <;>
      refine ⟨?_, ?_, ?_⟩ <;>
        intro h1 h2 <;>
          simp_all [convert_raw_parameter_value, ALL_TYPES]
  · intro t ht p v hv hparse
    fin_cases ht <;> simp_all [convert_raw_parameter_value, ALL_TYPES, hparse]
  · constructor <;> rfl
  · intro p v x hv
    simp only [convert_raw_parameter_value, ALL_TYPES]
    rw [if_neg (by decide), if_neg hv, if_neg (by decide), if_pos trivial]
    constructor
    · intro h
      by_cases h1 : v = "true"
      · rw [if_pos h1] at h
        exact Or.inl ⟨h1, by injection h; simp_all⟩
      · rw [if_neg h1] at h
        by_cases h2 : v = "false"
        · rw [if_pos h2] at h
          exact Or.inr ⟨h2, by injection h; simp_all⟩
        · rw [if_neg h2] at h
          exact absurd h (by simp)
    · rintro (⟨rfl, rfl⟩ | ⟨rfl, rfl⟩) <;> rfl
  · intro t ht p v
    simp [convert_raw_parameter_value, ht]

theorem c4_convert_raw_parameter_value_witness :
    convert_raw_parameter_value "p" "Bool" "true" = .ok (.bool true)
    ∧ (∃ m, convert_raw_parameter_value "p" "Length (mm)" "-1" = .error (.valueError m)) := by
  have h := c4_convert_raw_parameter_value
  constructor
  · exact (h.2.2.2.2.1 "p" "true" (.bool true) (by decide)).mpr (Or.inl ⟨rfl, rfl⟩)
  · exact (h.2.1 "Length (mm)" (by decide) "p" "-1" ⟨-1, 0⟩ (by decide) (by decide)).1
      (by decide) (by decide)

/-- Python dict, modelled as an association list; lookups return the first
binding, insertion replaces the binding of an existing key. -/
abbrev Dict (α : Type) : Type := List (String × α)

namespace Dict

def find? {α : Type} (d : Dict α) (k : String) : Option α :=
  (List.find? (fun kv => kv.1 == k) d).map (fun kv => kv.2)

def eraseKey {α : Type} (d : Dict α) (k : String) : Dict α :=
  d.filter (fun kv => kv.1 != k)

def insert {α : Type} (d : Dict α) (k : String) (v : α) : Dict α :=
  (k, v) :: d.eraseKey k

/-- Python `d.update(e)`: add every binding of `e` to `d`, overriding. -/
def update {α : Type} (d e : Dict α) : Dict α :=
  e.foldl (fun a kv => a.insert kv.1 kv.2) d

def keys {α : Type} (d : Dict α) : List String :=
  d.map (fun kv => kv.1)


theorem find?_eraseKey {α : Type} (d : Dict α) {k j : String} (h : j ≠ k) :
    Dict.find? (Dict.eraseKey d k) j = Dict.find? d j := by
  induction d with
  | nil => rfl
  | cons kv d ih =>
    by_cases hk : kv.1 = k
    · have hdrop : Dict.eraseKey (kv :: d) k = Dict.eraseKey d k := by
        simp [Dict.eraseKey, List.filter_cons, hk]
      have hj : (kv.1 == j) = false := by simp [hk, Ne.symm h]
      rw [hdrop, ih]
      simp [Dict.find?, List.find?, hj]
    · have hkeep : Dict.eraseKey (kv :: d) k = kv :: Dict.eraseKey d k := by
        simp [Dict.eraseKey, List.filter_cons, hk]
      rw [hkeep]
      by_cases hj : kv.1 = j
      · simp [Dict.find?, List.find?, hj]
      · have hj2 : (kv.1 == j) = false := by simp [hj]
        simp only [Dict.find?, List.find?, hj2]
        exact ih

theorem find?_insert_self {α : Type} (d : Dict α) (k : String) (v : α) :
    (d.insert k v).find? k = some v := by
  simp [insert, find?, List.find?]

theorem find?_insert_of_ne {α : Type} (d : Dict α) {k j : String} (v : α) (h : j ≠ k) :
    (d.insert k v).find? j = d.find? j := by
  have hk : (k == j) = false := by simp [Ne.symm h]
  simp only [insert, find?, List.find?, hk]
  exact find?_eraseKey d h

theorem find?_eq_none {α : Type} (d : Dict α) (k : String) :
    d.find? k = none ↔ k ∉ d.keys := by
  simp only [find?, Option.map_eq_none', List.find?_eq_none, keys, List.mem_map]
  constructor
  · rintro h ⟨kv, hmem, rfl⟩
    exact h kv hmem (by simp)
  · rintro h kv hmem hbeq
    exact h ⟨kv, hmem, by simpa using hbeq⟩

theorem find?_update_of_not_mem {α : Type} (d e : Dict α) {j : String}
    (h : j ∉ e.keys) : (d.update e).find? j = d.find? j := by
  induction e generalizing d with
  | nil => rfl
  | cons kv e ih =>
    simp only [keys, List.map_cons, List.mem_cons, not_or] at h
    have hstep : d.update (kv :: e) = (d.insert kv.1 kv.2).update e := rfl
    rw [hstep, ih _ h.2, find?_insert_of_ne _ _ h.1]

theorem find?_update {α : Type} (d e : Dict α) (hnd : e.keys.Nodup) (j : String) :
    (d.update e).find? j =
      match e.find? j with
      | some v => some v
      | none => d.find? j := by
  induction e generalizing d with
  | nil => rfl
  | cons kv e ih =>
    simp only [keys, List.map_cons, List.nodup_cons] at hnd
    have hstep : d.update (kv :: e) = (d.insert kv.1 kv.2).update e := rfl
    rw [hstep, ih _ hnd.2]
    by_cases hj : j = kv.1
    · have hnotin : j ∉ Dict.keys e := by rw [hj]; simpa [Dict.keys] using hnd.1
      have he : Dict.find? e j = none := (find?_eq_none e j).mpr hnotin
      have hcons : (Dict.find? (kv :: e) j) = some kv.2 := by
        simp [Dict.find?, List.find?, hj]
      rw [he, hcons, hj, find?_insert_self]
    · have hcons : (Dict.find? (kv :: e) j) = Dict.find? e j := by
        have hb : (kv.1 == j) = false := by simp [Ne.symm hj]
        simp [Dict.find?, List.find?, hb]
      rw [hcons, find?_insert_of_ne _ _ hj]

end Dict

/-- Stable insertion of `a` into `l`: `a` goes in front of the first
element `b` with `le a b`. -/
def insertSorted {α : Type} (le : α → α → Bool) (a : α) : List α → List α
  | [] => [a]
  | b :: l => if le a b then a :: b :: l else b :: insertSorted le a l

/-- Stable sort, modelling CPython's stable `sorted(...)`. -/
def insertionSort {α : Type} (le : α → α → Bool) : List α → List α
  | [] => []
  | a :: l => insertSorted le a (insertionSort le l)

theorem insertSorted_perm {α : Type} (le : α → α → Bool) (a : α) (l : List α) :
    (insertSorted le a l).Perm (a :: l) := by
  induction l with
  | nil => exact List.Perm.refl _
  | cons b l ih =>
    simp only [insertSorted]
    split
    · exact List.Perm.refl _
    · exact ((ih.cons b).trans (List.Perm.swap a b l))

theorem insertionSort_perm {α : Type} (le : α → α → Bool) (l : List α) :
    (insertionSort le l).Perm l := by
  induction l with
  | nil => exact List.Perm.refl _
  | cons a l ih =>
    exact (insertSorted_perm le a (insertionSort le l)).trans (ih.cons a)

theorem mem_insertSorted {α : Type} (le : α → α → Bool) (a x : α) (l : List α) :
    x ∈ insertSorted le a l ↔ x = a ∨ x ∈ l := by
  rw [(insertSorted_perm le a l).mem_iff]
  simp

theorem pairwise_insertSorted {α : Type} {le : α → α → Bool}
    (htot : ∀ a b, le a b || le b a)
    (htrans : ∀ a b c, le a b = true → le b c = true → le a c = true)
    (a : α) {l : List α} (h : l.Pairwise (fun x y => le x y = true)) :
    (insertSorted le a l).Pairwise (fun x y => le x y = true) := by
  induction l with
  | nil => simp [insertSorted]
  | cons b l ih =>
    rcases List.pairwise_cons.mp h with ⟨hb, hl⟩
    simp only [insertSorted]
    by_cases hab : le a b = true
    · rw [if_pos hab]
      refine List.pairwise_cons.mpr ⟨?_, h⟩
      intro y hy
      rcases List.mem_cons.mp hy with rfl | hy
      · exact hab
      · exact htrans a b y hab (hb y hy)
    · rw [if_neg hab]
      refine List.pairwise_cons.mpr ⟨?_, ih hl⟩
      intro y hy
      rcases (mem_insertSorted le a y l).mp hy with hya | hy
      · rw [hya]
        have h2 := htot a b
        cases h3 : le b a
        · rw [h3, Bool.or_false] at h2
          exact absurd h2 hab
        · rfl
      · exact hb y hy

theorem pairwise_insertionSort {α : Type} {le : α → α → Bool}
    (htot : ∀ a b, le a b || le b a)
    (htrans : ∀ a b c, le a b = true → le b c = true → le a c = true)
    (l : List α) :
    (insertionSort le l).Pairwise (fun x y => le x y = true) := by
  induction l with
  | nil => simp [insertionSort]
  | cons a l ih => exact pairwise_insertSorted htot htrans a ih

theorem pow10_pos (n : Nat) : 0 < pow10 n := by
  induction n with
  | zero => norm_num [pow10]
  | succ n ih => rw [pow10]; exact mul_pos (by norm_num) ih

theorem Dec.ble_total (a b : Dec) : (a.ble b || b.ble a) = true := by
  simp only [Dec.ble, Bool.or_eq_true, decide_eq_true_eq]
  exact le_total _ _

theorem Dec.ble_trans (a b c : Dec) (h1 : a.ble b = true) (h2 : b.ble c = true) :
    a.ble c = true := by
  simp only [Dec.ble, decide_eq_true_eq] at h1 h2 ⊢
  nlinarith [pow10_pos a.exp, pow10_pos b.exp, pow10_pos c.exp]

/-- Byte-wise lexicographic comparison of character lists, modelling
Python 2 string comparison. -/
def lexLe : List Char → List Char → Bool
  | [], _ => true
  | _ :: _, [] => false
  | a :: as, b :: bs =>
    if a.toNat < b.toNat then true
    else if b.toNat < a.toNat then false
    else lexLe as bs

def stringLe (a b : String) : Bool := lexLe a.toList b.toList

theorem lexLe_total : ∀ a b : List Char, (lexLe a b || lexLe b a) = true
  | [], _ => by simp [lexLe]
  | _ :: _, [] => by simp [lexLe]
  | a :: as, b :: bs => by
    simp only [lexLe]
    by_cases hab : a.toNat < b.toNat
    · simp [hab]
    · by_cases hba : b.toNat < a.toNat
      · simp [hab, hba]
      · simp only [if_neg hab, if_neg hba]
        exact lexLe_total as bs

theorem lexLe_trans : ∀ a b c : List Char,
    lexLe a b = true → lexLe b c = true → lexLe a c = true
  | [], _, _, _, _ => rfl
  | a :: as, [], c, h1, _ => by simp [lexLe] at h1
  | a :: as, b :: bs, [], _, h2 => by simp [lexLe] at h2
  | a :: as, b :: bs, c :: cs, h1, h2 => by
    simp only [lexLe] at h1 h2 ⊢
    by_cases hab : a.toNat < b.toNat
    · by_cases hbc : b.toNat < c.toNat
      · rw [if_pos (Nat.lt_trans hab hbc)]
      · rw [if_neg hbc] at h2
        by_cases hcb : c.toNat < b.toNat
        · rw [if_pos hcb] at h2; exact absurd h2 (by simp)
        · rw [if_pos (by omega : a.toNat < c.toNat)]
    · rw [if_neg hab] at h1
      by_cases hba : b.toNat < a.toNat
      · rw [if_pos hba] at h1; exact absurd h1 (by simp)
      · rw [if_neg hba] at h1
        by_cases hbc : b.toNat < c.toNat
        · rw [if_pos (by omega : a.toNat < c.toNat)]
        · rw [if_neg hbc] at h2
          by_cases hcb : c.toNat < b.toNat
          · rw [if_pos hcb] at h2; exact absurd h2 (by simp)
          · rw [if_neg hcb] at h2
            rw [if_neg (by omega : ¬ a.toNat < c.toNat),
              if_neg (by omega : ¬ c.toNat < a.toNat)]
            exact lexLe_trans as bs cs h1 h2

theorem stringLe_total (a b : String) : (stringLe a b || stringLe b a) = true :=
  lexLe_total _ _

theorem stringLe_trans (a b c : String) (h1 : stringLe a b = true)
    (h2 : stringLe b c = true) : stringLe a c = true :=
  lexLe_trans _ _ _ h1 h2

/-- Greedy match of the `Numerical` regex from the source,
`[^0-9]*([0-9]+\.*[0-9]*)[^0-9]*$` (via `re.match`), returning group 1.
The leading `[^0-9]*` can only consume the digit-free prefix, the group
then greedily takes the first digit run, a dot run and a second digit run;
since the trailing `[^0-9]*$` cannot match a digit and backtracking inside
the group only exposes digits or dots, the whole pattern matches exactly
when no digit remains after the group, and the greedy group is
`d1 ++ dots ++ d2`. -/
def numericalGroup (s : String) : Option String :=
  let cs := s.toList
  let afterPrefix := cs.dropWhile (fun c => ¬ c.isDigit)
  if afterPrefix.isEmpty then Option.none
  else
    let d1 := afterPrefix.takeWhile Char.isDigit
    let r1 := afterPrefix.dropWhile Char.isDigit
    let dots := r1.takeWhile (fun c => c = '.')
    let r2 := r1.dropWhile (fun c => c = '.')
    let d2 := r2.takeWhile Char.isDigit
    let r3 := r2.dropWhile Char.isDigit
    if r3.any Char.isDigit then Option.none
    else Option.some (String.mk (d1 ++ dots ++ d2))

/-- The sort key `float(self.re.match(x).group(1))` of the `Numerical`
strategy; `Option.none` when the regex does not match or `float()` fails. -/
def numericalKey (s : String) : Option Dec :=
  (numericalGroup s).bind parseDec

def numericalKeyD (s : String) : Dec := (numericalKey s).getD ⟨0, 0⟩

def numericalLe (a b : String) : Bool := (numericalKeyD a).ble (numericalKeyD b)

theorem numericalLe_total (a b : String) : (numericalLe a b || numericalLe b a) = true :=
  Dec.ble_total _ _

theorem numericalLe_trans (a b c : String) (h1 : numericalLe a b = true)
    (h2 : numericalLe b c = true) : numericalLe a c = true :=
  Dec.ble_trans _ _ _ h1 h2

namespace Numerical

/-- `Numerical.is_applicable` from the source: every choice matches the
regex. -/
def is_applicable (choices : List String) : Bool :=
  choices.all (fun c => (numericalGroup c).isSome)

/-- `Numerical.sort` from the source:
`sorted(choices, key=lambda x: float(self.re.match(x).group(1)))`.
CPython evaluates the key for every element and raises when the regex did
not match or when `float()` rejects the extracted group; both failures are
modelled as an error. -/
def sort (choices : List String) : Except BErr (List String) :=
  if choices.all (fun c => (numericalKey c).isSome) then
    .ok (insertionSort numericalLe choices)
  else .error (.valueError "invalid literal for float()")

end Numerical

namespace Lexicographical

/-- `Lexicographical.is_applicable` from the source: always `True`. -/
def is_applicable (_choices : List String) : Bool := true

/-- `Lexicographical.sort` from the source: `sorted(choices)`. -/
def sort (choices : List String) : List String := insertionSort stringLe choices

end Lexicographical

/-- The `SORTINGS` loop from the source: strategies are tried in the fixed
order Numerical, Lexicographical, and the first applicable one sorts; the
Lexicographical fallback is always applicable, so the final `.ok choices`
branch is unreachable. -/
def sortChoices (choices : List String) : Except BErr (List String) :=
  if Numerical.is_applicable choices then Numerical.sort choices
  else if Lexicographical.is_applicable choices then .ok (Lexicographical.sort choices)
  else .ok choices

theorem all_of_perm {α : Type} (p : α → Bool) {l l' : List α} (h : l.Perm l') :
    l.all p = l'.all p := by
  cases hall : l'.all p
  · simp only [List.all_eq_false] at hall ⊢
    rcases hall with ⟨x, hx, hpx⟩
    exact ⟨x, h.mem_iff.mpr hx, hpx⟩
  · simp only [List.all_eq_true] at hall ⊢
    exact fun x hx => hall x (h.mem_iff.mp hx)

/-- The ordering the selected strategy guarantees: sorted by numeric key if
the Numerical strategy applies to the candidates, lexicographically
otherwise. -/
def sortedByStrategy (cs : List String) : Prop :=
  if Numerical.is_applicable cs then cs.Pairwise (fun a b => numericalLe a b = true)
  else cs.Pairwise (fun a b => stringLe a b = true)

theorem sortChoices_ok {cs out : List String} (h : sortChoices cs = .ok out) :
    out.Perm cs ∧ sortedByStrategy out := by
  unfold sortChoices at h
  by_cases happ : Numerical.is_applicable cs
  · rw [if_pos happ] at h
    unfold Numerical.sort at h
    split at h
    · injection h with h
      subst h
      refine ⟨insertionSort_perm _ _, ?_⟩
      unfold sortedByStrategy
      rw [show Numerical.is_applicable (insertionSort numericalLe cs)
            = Numerical.is_applicable cs from all_of_perm _ (insertionSort_perm _ _),
        if_pos happ]
      exact pairwise_insertionSort numericalLe_total numericalLe_trans cs
    · exact absurd h (by simp)
  · rw [if_neg happ] at h
    simp only [Lexicographical.is_applicable, if_true] at h
    injection h with h
    subst h
    refine ⟨insertionSort_perm _ _, ?_⟩
    unfold sortedByStrategy Lexicographical.sort
    rw [show Numerical.is_applicable (insertionSort stringLe cs)
          = Numerical.is_applicable cs from all_of_perm _ (insertionSort_perm _ _),
      if_neg happ]
    exact pairwise_insertionSort stringLe_total stringLe_trans cs

/-- Modelled from the spec: the applicability pattern the spec claims for
the Numerical strategy — an optional non-digit prefix, a number possibly
with one decimal point (a digit run, optionally a single point and a
further digit run), and an optional non-digit suffix. -/
def specTrailingNumericPattern (s : String) : Bool :=
  let cs := s.toList
  let afterPrefix := cs.dropWhile (fun c => ¬ c.isDigit)
  if afterPrefix.isEmpty then false
  else
    let r1 := afterPrefix.dropWhile Char.isDigit
    let dots := r1.takeWhile (fun c => c = '.')
    let r2 := r1.dropWhile (fun c => c = '.')
    let r3 := r2.dropWhile Char.isDigit
    decide (dots.length ≤ 1) && !(r3.any Char.isDigit)

/-- C5 (code-bug evidence): the regex `[0-9]+\.*[0-9]*` of the Numerical
strategy admits a run of decimal points, so on the candidate set
containing only `"1..2"` the strategy declares itself applicable although
the candidate is not a number with at most one decimal point (the spec's
pattern); the subsequent sort then fails because `float()` rejects the
extracted group `"1..2"`, and the strategy-selection loop propagates a
`ValueError` instead of returning a sorted copy.  Conversely every string
the spec's pattern admits is also matched by the code's regex, so the
divergence is exactly the multi-dot case. -/
theorem c5_numerical_sorting_bug :
    Numerical.is_applicable ["1..2"] = true
    ∧ specTrailingNumericPattern "1..2" = false
    ∧ numericalGroup "1..2" = Option.some "1..2"
    ∧ parseDec "1..2" = Option.none
    ∧ Numerical.sort ["1..2"] = .error (.valueError "invalid literal for float()")
    ∧ sortChoices ["1..2"] = .error (.valueError "invalid literal for float()")
    ∧ (∀ s, specTrailingNumericPattern s = true → (numericalGroup s).isSome = true) := by
  refine ⟨by decide, by decide, by decide, by decide, rfl, rfl, ?_⟩
  intro s h
  simp only [specTrailingNumericPattern] at h
  simp only [numericalGroup]
  by_cases hemp : ((s.toList.dropWhile (fun c => ¬ c.isDigit)).isEmpty) = true
  · rw [if_pos hemp] at h
    exact absurd h (by simp)
  · rw [if_neg hemp] at h
    rw [if_neg hemp]
    rcases Bool.and_eq_true_iff.mp h with ⟨-, hr3⟩
    rw [Bool.not_eq_true' ] at hr3
    rw [if_neg (by rw [hr3]; exact Bool.false_ne_true)]
    rfl

/-- The declaration of a 1D table as handed to `BOLTSTable.__init__`
(schema `index`/`columns`/`data` enforced structurally; cells are raw
YAML strings). -/
structure BOLTSTableDecl where
  index : String
  columns : List String
  data : Dict (List String)
deriving DecidableEq, Repr

/-- A 1D table after `_normalize_and_check_types`: cells converted to
typed values. -/
structure BOLTSTable where
  index : String
  columns : List String
  data : Dict (List Value)
deriving DecidableEq, Repr

/-- The declaration of a 2D table as handed to `BOLTSTable2D.__init__`. -/
structure BOLTSTable2DDecl where
  rowindex : String
  colindex : String
  result : String
  columns : List String
  data : Dict (List String)
deriving DecidableEq, Repr

/-- A 2D table after `_normalize_and_check_types`. -/
structure BOLTSTable2D where
  rowindex : String
  colindex : String
  result : String
  columns : List String
  data : Dict (List Value)
deriving DecidableEq, Repr

/-- `BOLTSTable._normalize_and_check_types`: look up the column types,
require every row to have exactly one cell per column, and convert each
cell with its column's type. -/
def normalizeTable (types : Dict String) (t : BOLTSTableDecl) :
    Except BErr BOLTSTable := do
  let colTypes ← t.columns.mapM (fun c =>
    match Dict.find? types c with
    | Option.some ty => Except.ok ty
    | Option.none => Except.error (BErr.keyError c))
  let data ← t.data.mapM (fun kv =>
    if kv.2.length ≠ t.columns.length then
      Except.error (BErr.valueError ("Column is missing for row: " ++ kv.1))
    else do
      let row ← ((t.columns.zip colTypes).zip kv.2).mapM (fun cell =>
        convert_raw_parameter_value cell.1.1 cell.1.2 cell.2)
      return (kv.1, row))
  return ⟨t.index, t.columns, data⟩

/-- `BOLTSTable2D._normalize_and_check_types`: require every row to have
one cell per column and convert each cell with the `result` type. -/
def normalizeTable2D (types : Dict String) (t : BOLTSTable2DDecl) :
    Except BErr BOLTSTable2D :=
  match Dict.find? types t.result with
  | Option.none => Except.error (BErr.keyError t.result)
  | Option.some resType => do
    let data ← t.data.mapM (fun kv =>
      if kv.2.length ≠ t.columns.length then
        Except.error (BErr.valueError ("Column is missing for row: " ++ kv.1))
      else do
        let row ← kv.2.mapM (fun cell => convert_raw_parameter_value t.result resType cell)
        return (kv.1, row))
    return ⟨t.rowindex, t.colindex, t.result, t.columns, data⟩

/-- `BOLTSTable.get_values(key)`: `dict(zip(self.columns, self.data[key]))`;
an absent (or non-string) key is a `KeyError`. -/
def BOLTSTable.get_values (t : BOLTSTable) (key : Value) : Except BErr (Dict Value) :=
  match key with
  | .str s =>
    match Dict.find? t.data s with
    | Option.some row => .ok (Dict.update ([] : Dict Value) (t.columns.zip row))
    | Option.none => .error (.keyError s)
  | _ => .error (.keyError "non-string key")

/-- `BOLTSTable2D.get_value(row, col)`:
`self.data[row][self.columns.index(col)]` wrapped as `{result : value}`;
an absent row key is a `KeyError`, an absent column a `ValueError`
(`list.index`), and Python `==` decides column membership. -/
def BOLTSTable2D.get_value (t : BOLTSTable2D) (row col : Value) :
    Except BErr (Dict Value) :=
  match row with
  | .str r =>
    match Dict.find? t.data r with
    | Option.some cells =>
      match t.columns.findIdx? (fun c => col.eqv (.str c)) with
      | Option.some i =>
        match cells.get? i with
        | Option.some v => .ok [(t.result, v)]
        | Option.none => .error (.keyError "row too short")
      | Option.none => .error (.valueError "col is not in columns")
    | Option.none => .error (.keyError r)
  | _ => .error (.keyError "non-string key")

/-- One entry of a `common` tuple: the wildcard `":"` or an explicit
sequence of values to substitute. -/
inductive Selector where
  | wild
  | vals (vs : List Value)
deriving DecidableEq, Repr

/-- A `parameters` declaration as handed to `BOLTSParameters.__init__`
from YAML parsing.  The `check_schema` call (mandatory field `types`,
optional fields below) is enforced structurally by this record; the
"single table or list" alternative for `tables`/`tables2d` is normalized
to a list. -/
structure ParamDecl where
  types : Dict String
  literal : Option (Dict String) := Option.none
  free : Option (List String) := Option.none
  tables : Option (List BOLTSTableDecl) := Option.none
  tables2d : Option (List BOLTSTable2DDecl) := Option.none
  defaults : Option (Dict Value) := Option.none
  common : Option (List (List Selector)) := Option.none
  description : Option (Dict String) := Option.none
deriving DecidableEq, Repr

/-- The constructed `BOLTSParameters` object, with the fields `__init__`
assigns; `common = Option.none` models Python's `self.common = None`. -/
structure BOLTSParameters where
  types : Dict String
  literal : Dict Value
  free : List String
  tables : List BOLTSTable
  tables2d : List BOLTSTable2D
  description : Dict String
  parameters : List String
  choices : Dict (List String)
  defaults : Dict Value
  common : Option (List (List Value))
deriving DecidableEq, Repr

/-- `BOLTSParameters.type_defaults` from the source. -/
def type_defaults : Dict Value :=
  [("Length (mm)", .num ⟨10, 0⟩), ("Length (in)", .num ⟨1, 0⟩),
   ("Number", .num ⟨1, 0⟩), ("Bool", .bool false),
   ("Table Index", .str ""), ("String", .str ""), ("Angle (deg)", .num ⟨0, 0⟩)]

/-- The `literal` step of `__init__`: each literal parameter must have a
declared type and its raw value is converted. -/
def mkLiteral (types : Dict String) (lits : Dict String) : Except BErr (Dict Value) :=
  lits.mapM (fun kv =>
    match Dict.find? types kv.1 with
    | Option.none => Except.error (BErr.missingType kv.1)
    | Option.some ty => do
      let v ← convert_raw_parameter_value kv.1 ty kv.2
      return (kv.1, v))

/-- The `parameters` list of `__init__`: literal keys, free names, every
table's index and columns, every 2D table's row index, column index and
result, duplicates removed (`list(set(...))`; the set order is
unspecified in Python, the embedding keeps first occurrences). -/
def computeParameters (literal : Dict Value) (free : List String)
    (tables : List BOLTSTableDecl) (tables2d : List BOLTSTable2DDecl) : List String :=
  (Dict.keys literal ++ free
    ++ tables.flatMap (fun t => t.index :: t.columns)
    ++ tables2d.flatMap (fun t => [t.rowindex, t.colindex, t.result])).dedup

/-- The type checks of `__init__`: every typed name is a parameter with a
known type, and every parameter has a type. -/
def checkTypes (types : Dict String) (parameters : List String) :
    Except BErr Unit := do
  let _ ← types.mapM (fun kv =>
    if ¬ kv.1 ∈ parameters then Except.error (BErr.unknownParameter kv.1)
    else if ¬ kv.2 ∈ ALL_TYPES then Except.error (BErr.unknownType kv.2)
    else Except.ok ())
  let _ ← parameters.mapM (fun p =>
    match Dict.find? types p with
    | Option.none => Except.error (BErr.missingType p)
    | Option.some _ => Except.ok ())
  return ()

/-- The description check of `__init__`: descriptions only for known
parameters. -/
def checkDescription (description : Dict String) (parameters : List String) :
    Except BErr Unit := do
  let _ ← description.mapM (fun kv =>
    if ¬ kv.1 ∈ parameters then Except.error (BErr.unknownParameter kv.1)
    else Except.ok ())
  return ()

/-- The per-parameter choice-set accumulation of `__init__`: the first
table referencing `pname` (1D tables first, then 2D tables; as index or
rowindex contributing its key set, as colindex its column set) seeds the
set, every later reference intersects (`&=`, modelled by `filter`). -/
def choiceSetFor (tables : List BOLTSTable) (tables2d : List BOLTSTable2D)
    (pname : String) : Option (List String) :=
  let acc1 := tables.foldl (fun acc t =>
    if t.index = pname then
      match acc with
      | Option.none => Option.some (Dict.keys t.data).dedup
      | Option.some s => Option.some (s.filter (fun x => x ∈ Dict.keys t.data))
    else acc) Option.none
  tables2d.foldl (fun acc t =>
    if t.rowindex = pname then
      match acc with
      | Option.none => Option.some (Dict.keys t.data).dedup
      | Option.some s => Option.some (s.filter (fun x => x ∈ Dict.keys t.data))
    else if t.colindex = pname then
      match acc with
      | Option.none => Option.some t.columns.dedup
      | Option.some s => Option.some (s.filter (fun x => x ∈ t.columns))
    else acc) acc1

/-- The `choices` dict of `__init__` before sorting: one entry per free
parameter of type `Table Index` that at least one table references. -/
def computeChoices (free : List String) (types : Dict String)
    (tables : List BOLTSTable) (tables2d : List BOLTSTable2D) : Dict (List String) :=
  free.foldl (fun d pname =>
    if Dict.find? types pname = Option.some "Table Index" then
      match choiceSetFor tables tables2d pname with
      | Option.some s => d.insert pname s
      | Option.none => d
    else d) []

/-- The sorting pass of `__init__` over the choices dict. -/
def sortAllChoices (choices : Dict (List String)) :
    Except BErr (Dict (List String)) :=
  choices.mapM (fun kv => do
    let s ← sortChoices kv.2
    return (kv.1, s))

/-- The built-in default binding for one free parameter:
`(pname, type_defaults[self.types[pname]])`. -/
def defaultFor (types : Dict String) (pname : String) :
    Except BErr (String × Value) :=
  match Dict.find? types pname with
  | Option.none => Except.error (BErr.keyError pname)
  | Option.some ty =>
    match Dict.find? type_defaults ty with
    | Option.none => Except.error (BErr.keyError ty)
    | Option.some v => Except.ok (pname, v)

/-- One iteration of the explicit-`defaults` loop of `__init__`: the entry
must name a free parameter, and a `Table Index` entry must be one of the
parameter's choices (Python `in`, i.e. `==` against each choice); then the
entry overrides the built-in default. -/
def applyDefault (free : List String) (types : Dict String)
    (choices : Dict (List String)) (acc : Dict Value) (kv : String × Value) :
    Except BErr (Dict Value) :=
  if ¬ kv.1 ∈ free then Except.error (BErr.nonFreeDefault kv.1)
  else if Dict.find? types kv.1 = Option.some "Table Index" then
    match Dict.find? choices kv.1 with
    | Option.none => Except.error (BErr.keyError kv.1)
    | Option.some cs =>
      if ¬ (cs.any (fun c => kv.2.eqv (.str c))) = true then
        Except.error (BErr.invalidTableIndex kv.1 kv.2)
      else Except.ok (Dict.insert acc kv.1 kv.2)
  else Except.ok (Dict.insert acc kv.1 kv.2)

/-- The `defaults` step of `__init__`: every free parameter receives its
type's built-in default, then the explicit `defaults` entries are applied
in order. -/
def computeDefaults (free : List String) (types : Dict String)
    (choices : Dict (List String)) (explicit : Dict Value) :
    Except BErr (Dict Value) := do
  let base ← free.mapM (defaultFor types)
  explicit.foldlM (applyDefault free types choices) (base : Dict Value)

/-- The inner `for v in ...` loop of `_populate_common`: `k` is the
recursive descent into the remaining free parameters; the loop recurses
once per candidate value, in order, concatenating the emitted tuples. -/
def populate_loop (k : List Value → Except BErr (List (List Value))) :
    List Value → List Value → Except BErr (List (List Value))
  | _, [] => .ok []
  | values, v :: vs => do
    let a ← k (values ++ [v])
    let b ← populate_loop k values vs
    return a ++ b

/-- `BOLTSParameters._populate_common(tup, values, idx)` from the source,
with `idx` represented by the remaining suffixes of `free` and `tup`: at
the end the accumulated `values` tuple is emitted; a wildcard selector
expands to `[True, False]` for a `Bool` parameter and to the parameter's
choice list for a `Table Index` parameter (a `KeyError` if it has no
choices); a parameter of any other type appends nothing (the source only
prints "That should not happen"); an explicit selector expands to its
values; a tuple shorter than `free` is an `IndexError`. -/
def populate_common (types : Dict String) (choices : Dict (List String)) :
    List String → List Selector → List Value → Except BErr (List (List Value))
  | [], _, values => .ok [values]
  | _ :: _, [], _ => .error (.keyError "tuple index out of range")
  | f :: fs, sel :: rest, values =>
    match sel with
    | .wild =>
      if Dict.find? types f = Option.some "Bool" then
        populate_loop (fun values2 => populate_common types choices fs rest values2)
          values [.bool true, .bool false]
      else if Dict.find? types f = Option.some "Table Index" then
        match Dict.find? choices f with
        | Option.some cs =>
          populate_loop (fun values2 => populate_common types choices fs rest values2)
            values (cs.map Value.str)
        | Option.none => .error (.keyError f)
      else .ok []
    | .vals vs =>
      populate_loop (fun values2 => populate_common types choices fs rest values2)
        values vs

/-- The `common` step of `__init__`: explicit `common` tuples are each
expanded by `_populate_common` and concatenated; with no `common` key the
full cross-product is expanded when every free parameter has a discrete
type (`Bool` or `Table Index`), the single empty tuple is used when there
are no free parameters at all, and otherwise `common` stays `None`. -/
def computeCommon (commonDecl : Option (List (List Selector)))
    (types : Dict String) (choices : Dict (List String)) (free : List String) :
    Except BErr (Option (List (List Value))) :=
  let discrete_types : List String := ["Bool", "Table Index"]
  match commonDecl with
  | Option.some tuples => do
    let combos ← tuples.foldlM (fun acc tup => do
      let cs ← populate_common types choices free tup []
      return acc ++ cs) ([] : List (List Value))
    return Option.some combos
  | Option.none =>
    if free.all (fun p =>
        match Dict.find? types p with
        | Option.some t => t ∈ discrete_types
        | Option.none => false) then
      if free.length > 0 then do
        let cs ← populate_common types choices free (free.map (fun _ => Selector.wild)) []
        return Option.some cs
      else .ok (Option.some [[]])
    else .ok Option.none

/-- The `rowindex != colindex` check of `BOLTSTable2D.__init__`. -/
def check2DDecl (t : BOLTSTable2DDecl) : Except BErr BOLTSTable2DDecl :=
  if t.rowindex = t.colindex then
    Except.error (BErr.valueError
      "Row- and ColIndex are identical. In this case a ordinary table should be used.")
  else Except.ok t

/-- One iteration of the table loop of `__init__`: normalize the table and
require its index to be typed `Table Index`. -/
def buildTable (types : Dict String) (t : BOLTSTableDecl) : Except BErr BOLTSTable := do
  let tn ← normalizeTable types t
  match Dict.find? types tn.index with
  | Option.some ty =>
    if ty ≠ "Table Index" then Except.error (BErr.tableIndexType tn.index ty)
    else Except.ok tn
  | Option.none => Except.error (BErr.keyError tn.index)

/-- One iteration of the 2D-table loop of `__init__`. -/
def buildTable2D (types : Dict String) (t : BOLTSTable2DDecl) :
    Except BErr BOLTSTable2D := do
  let tn ← normalizeTable2D types t
  match Dict.find? types tn.rowindex with
  | Option.none => Except.error (BErr.keyError tn.rowindex)
  | Option.some ty =>
    if ty ≠ "Table Index" then Except.error (BErr.tableIndexType tn.rowindex ty)
    else
      match Dict.find? types tn.colindex with
      | Option.none => Except.error (BErr.keyError tn.colindex)
      | Option.some ty2 =>
        if ty2 ≠ "Table Index" then Except.error (BErr.tableIndexType tn.colindex ty2)
        else Except.ok tn

/-- `BOLTSParameters.__init__` from the source: literal conversion, table
construction, the `parameters` list, the type and description checks,
per-table normalization and index-type checks, the choice sets and their
sorting, the defaults and the common combinations. -/
def mkBOLTSParameters (param : ParamDecl) : Except BErr BOLTSParameters := do
  let types := param.types
  let literal ← mkLiteral types (param.literal.getD [])
  let free := param.free.getD []
  let tableDecls := param.tables.getD []
  let table2dDecls ← (param.tables2d.getD []).mapM check2DDecl
  let description := param.description.getD []
  let parameters := computeParameters literal free tableDecls table2dDecls
  let _ ← checkTypes types parameters
  let _ ← checkDescription description parameters
  let tables ← tableDecls.mapM (buildTable types)
  let tables2d ← table2dDecls.mapM (buildTable2D types)
  let choices ← sortAllChoices (computeChoices free types tables tables2d)
  let defaults ← computeDefaults free types choices (param.defaults.getD [])
  let common ← computeCommon param.common types choices free
  return ⟨types, literal, free, tables, tables2d, description, parameters,
    choices, defaults, common⟩

/-- One iteration of the 1D-table loop of `collect`:
`res.update(table.get_values(res[table.index]))`. -/
def collectStepT (res : Dict Value) (t : BOLTSTable) : Except BErr (Dict Value) :=
  match Dict.find? res t.index with
  | Option.some v => do
    let row ← t.get_values v
    Except.ok (Dict.update res row)
  | Option.none => Except.error (BErr.keyError t.index)

/-- One iteration of the 2D-table loop of `collect`:
`res.update(table.get_value(res[table.rowindex], res[table.colindex]))`. -/
def collectStepT2 (res : Dict Value) (t : BOLTSTable2D) : Except BErr (Dict Value) :=
  match Dict.find? res t.rowindex, Dict.find? res t.colindex with
  | Option.some rv, Option.some cv => do
    let one ← t.get_value rv cv
    Except.ok (Dict.update res one)
  | Option.none, _ => Except.error (BErr.keyError t.rowindex)
  | _, Option.none => Except.error (BErr.keyError t.colindex)

/-- The three merge statements of `BOLTSParameters.collect`: start from the
literal values, overlay the supplied free values, then merge each 1D
table's row (looked up by the accumulated value of its index) and each 2D
table's result (looked up by the accumulated rowindex/colindex values). -/
def collectMerge (P : BOLTSParameters) (free : Dict Value) :
    Except BErr (Dict Value) := do
  let res := Dict.update (Dict.update ([] : Dict Value) P.literal) free
  let res ← P.tables.foldlM collectStepT res
  P.tables2d.foldlM collectStepT2 res

/-- `BOLTSParameters.collect` from the source: the merges, then the
completeness loop raising for the first declared parameter without a
value. -/
def collect (P : BOLTSParameters) (free : Dict Value) :
    Except BErr (Dict Value) := do
  let res ← collectMerge P free
  match P.parameters.find? (fun p => (Dict.find? res p).isNone) with
  | Option.some p => Except.error (BErr.notCollected p)
  | Option.none => Except.ok res

/-- One iteration of a `union` merge loop over the entries of `other`
(the `types`, `defaults` and `description` loops share this shape): a
parameter already present in the result under construction must agree
with the value held by `self` — `bad` is the inequality test of the loop
(`!=` on strings, Python `==` negated on values) — else the loop raises
`mkE` naming the parameter and both values; agreeing or new entries are
inserted, `other` overriding. -/
def mergeStep {β : Type} (bad : β → β → Bool) (mkE : String → β → β → BErr)
    (selfT : Dict β) (acc : Dict β) (kv : String × β) : Except BErr (Dict β) :=
  if (Dict.find? acc kv.1).isSome then
    match Dict.find? selfT kv.1 with
    | Option.some t0 =>
      if bad t0 kv.2 then Except.error (mkE kv.1 t0 kv.2)
      else Except.ok (Dict.insert acc kv.1 kv.2)
    | Option.none => Except.error (BErr.keyError kv.1)
  else Except.ok (Dict.insert acc kv.1 kv.2)

/-- The two `types` merge loops of `union`: copy `self.types` into the
fresh result (the first loop is `Dict.update` of the empty dict), then
add `other.types`, asking `self.types` for the old value and failing when
a parameter already present maps to a different type. -/
def unionTypes (selfT otherT : Dict String) : Except BErr (Dict String) :=
  otherT.foldlM (mergeStep (fun a b => a != b) BErr.incompatibleType selfT)
    (Dict.update ([] : Dict String) selfT)

/-- The two `defaults` merge loops of `union`; values are compared with
Python `==`. -/
def unionDefaults (selfD otherD : Dict Value) : Except BErr (Dict Value) :=
  otherD.foldlM (mergeStep (fun a b => ! a.eqv b) BErr.incompatibleDefault selfD)
    (Dict.update ([] : Dict Value) selfD)

/-- The two `description` merge loops of `union`. -/
def unionDescription (selfD otherD : Dict String) : Except BErr (Dict String) :=
  otherD.foldlM (mergeStep (fun a b => a != b) BErr.incompatibleDescription selfD)
    (Dict.update ([] : Dict String) selfD)

/-- The choices merge of `union`: copy `self.choices` as sets (`set(...)`
is modelled by `dedup`), intersect with or adopt `other.choices`, then
re-sort every entry with the strategy selection. -/
def unionChoices (selfC otherC : Dict (List String)) :
    Except BErr (Dict (List String)) := do
  let first := selfC.foldl (fun acc kv => Dict.insert acc kv.1 kv.2.dedup)
    ([] : Dict (List String))
  let merged := otherC.foldl (fun acc kv =>
    match Dict.find? acc kv.1 with
    | Option.some s => Dict.insert acc kv.1 (s.filter (fun x => x ∈ kv.2))
    | Option.none => Dict.insert acc kv.1 kv.2.dedup) first
  sortAllChoices merged

/-- The declaration the `union` result object is built from: only an empty
`types` dict. -/
def emptyDecl : ParamDecl := { types := [] }

/-- The parameter set built from `emptyDecl`. -/
def emptyParams : BOLTSParameters :=
  ⟨[], [], [], [], [], [], [], [], [], Option.some [[]]⟩

theorem mk_emptyDecl : mkBOLTSParameters emptyDecl = .ok emptyParams := rfl

/-- The three objects `union` works on: `self`, `other` and the result
object under construction. -/
structure UnionState where
  slf : BOLTSParameters
  oth : BOLTSParameters
  res : BOLTSParameters
deriving DecidableEq, Repr

/-- `BOLTSParameters.union(self, other)` from the source, with every
object the statements touch threaded explicitly: the state carries
`self`, `other` and the result object `res` built from the empty
declaration, and each statement of the source is an update of a `res`
field computed from the current state. -/
def union_imp (slf oth : BOLTSParameters) : Except BErr UnionState := do
  let res0 ← mkBOLTSParameters emptyDecl
  let s1 : UnionState := ⟨slf, oth, res0⟩
  let s2 : UnionState := { s1 with res := { s1.res with
    literal := Dict.update (Dict.update s1.res.literal s1.slf.literal) s1.oth.literal } }
  let s3 : UnionState := { s2 with res := { s2.res with
    free := s2.slf.free ++ s2.oth.free } }
  let s4 : UnionState := { s3 with res := { s3.res with
    tables := s3.slf.tables ++ s3.oth.tables } }
  let s5 : UnionState := { s4 with res := { s4.res with
    tables2d := s4.slf.tables2d ++ s4.oth.tables2d } }
  let s6 : UnionState := { s5 with res := { s5.res with
    parameters := (s5.slf.parameters ++ s5.oth.parameters).dedup } }
  let t ← unionTypes s6.slf.types s6.oth.types
  let s7 : UnionState := { s6 with res := { s6.res with types := t } }
  let dfl ← unionDefaults s7.slf.defaults s7.oth.defaults
  let s8 : UnionState := { s7 with res := { s7.res with defaults := dfl } }
  let dsc ← unionDescription s8.slf.description s8.oth.description
  let s9 : UnionState := { s8 with res := { s8.res with description := dsc } }
  let ch ← unionChoices s9.slf.choices s9.oth.choices
  let s10 : UnionState := { s9 with res := { s9.res with choices := ch } }
  return s10

/-- `BOLTSParameters.union`'s return value. -/
def union (slf oth : BOLTSParameters) : Except BErr BOLTSParameters :=
  (union_imp slf oth).map (fun st => st.res)

theorem exceptBindOk {ε α β : Type} {x : Except ε α} {f : α → Except ε β} {c : β}
    (h : (x >>= f) = .ok c) : ∃ a, x = .ok a ∧ f a = .ok c := by
  cases x with
  | ok a => exact ⟨a, rfl, h⟩
  | error e => simp [Bind.bind, Except.bind] at h

/-- C8: `union` is pure — it builds a fresh result object from the empty
declaration, and every statement of its body only writes fields of that
result object, so for every two parameter-set instances the final state
carries both operands exactly as they were passed in, while the returned
instance is the result object. -/
theorem c8_union_pure (s o : BOLTSParameters) (σ : UnionState)
    (h : union_imp s o = .ok σ) :
    σ.slf = s ∧ σ.oth = o ∧ union s o = .ok σ.res := by
  refine ⟨?_, ?_, ?_⟩
  all_goals
    first
    | (unfold union
       rw [h]
       rfl)
    | (unfold union_imp at h
       rw [mk_emptyDecl] at h
       rcases exceptBindOk h with ⟨res0, h0, h⟩
       rcases exceptBindOk h with ⟨t, ht, h⟩
       rcases exceptBindOk h with ⟨dfl, hd, h⟩
       rcases exceptBindOk h with ⟨dsc, hds, h⟩
       rcases exceptBindOk h with ⟨ch, hc, h⟩
       injection h with h
       subst h
       rfl)

theorem c8_union_pure_witness :
    union_imp emptyParams emptyParams = .ok ⟨emptyParams, emptyParams, emptyParams⟩
    ∧ (⟨emptyParams, emptyParams, emptyParams⟩ : UnionState).slf = emptyParams
    ∧ (⟨emptyParams, emptyParams, emptyParams⟩ : UnionState).oth = emptyParams := by
  have h := c8_union_pure emptyParams emptyParams
    ⟨emptyParams, emptyParams, emptyParams⟩ rfl
  exact ⟨rfl, h.1, h.2.1⟩

/-- C9: the instance returned by `union` always has exactly one empty
common combination, whatever the operands' combination lists are: the
result object is built from the empty declaration (zero free parameters,
hence the single empty tuple) and `union` never writes its `common`
field. -/
theorem c9_union_common_reset (s o r : BOLTSParameters) (h : union s o = .ok r) :
    r.common = Option.some [[]] := by
  unfold union at h
  cases him : union_imp s o with
  | error e => rw [him] at h; simp [Except.map] at h
  | ok σ =>
    rw [him] at h
    simp only [Except.map] at h
    injection h with h
    subst h
    unfold union_imp at him
    rw [mk_emptyDecl] at him
    rcases exceptBindOk him with ⟨res0, h0, him⟩
    injection h0 with h0
    subst h0
    rcases exceptBindOk him with ⟨t, ht, him⟩
    rcases exceptBindOk him with ⟨dfl, hd, him⟩
    rcases exceptBindOk him with ⟨dsc, hds, him⟩
    rcases exceptBindOk him with ⟨ch, hc, him⟩
    injection him with him
    subst him
    rfl

theorem c9_union_common_reset_witness : emptyParams.common = Option.some [[]] :=
  c9_union_common_reset emptyParams emptyParams emptyParams rfl

/-- The declaration of the spec's `collect` example: literal parameter
`k` with value 1, free parameter `k2`, no tables. -/
def exC1decl : ParamDecl :=
  { types := [("k", "Number"), ("k2", "Number")],
    literal := Option.some [("k", "1")],
    free := Option.some ["k2"] }

/-- The parameter set `exC1decl` constructs. -/
def exC1P : BOLTSParameters :=
  ⟨[("k", "Number"), ("k2", "Number")], [("k", .num ⟨1, 0⟩)], ["k2"], [], [], [],
    ["k", "k2"], [], [("k2", .num ⟨1, 0⟩)], Option.none⟩

/-- The result of the example `collect` call: exactly the mapping with
`k` bound to 1 and `k2` bound to 5. -/
def exC1res : Dict Value := [("k2", .num ⟨5, 0⟩), ("k", .num ⟨1, 0⟩)]

/-- C1: `collect` overlays, in order, the literal values, the supplied
free values, each 1D table's row (looked up by the accumulated value of
its index) and each 2D table's result (looked up by the accumulated
rowindex/colindex values) — this pipeline is `collectMerge`; whenever the
merges succeed, `collect` returns the merged mapping if every declared
parameter is present and otherwise fails with a completeness error naming
a declared parameter that is absent (the first one in `parameters`
order).  On the spec's example — literal `k = 1`, free `k2` supplied as 5,
no tables — the result is exactly the mapping `k = 1, k2 = 5`, and
omitting the free value fails with a completeness error naming `k2`. -/
theorem c1_collect_overlay :
    (∀ (P : BOLTSParameters) (fr res : Dict Value),
      collectMerge P fr = .ok res →
        ((∀ p ∈ P.parameters, (Dict.find? res p).isSome = true) →
            collect P fr = .ok res)
        ∧ (∀ p0, P.parameters.find? (fun p => (Dict.find? res p).isNone)
              = Option.some p0 →
            collect P fr = .error (.notCollected p0) ∧ p0 ∈ P.parameters
              ∧ Dict.find? res p0 = Option.none)
        ∧ ((∃ p ∈ P.parameters, Dict.find? res p = Option.none) →
            ∃ p0, collect P fr = .error (.notCollected p0) ∧ p0 ∈ P.parameters
              ∧ Dict.find? res p0 = Option.none))
    ∧ (mkBOLTSParameters exC1decl = .ok exC1P
        ∧ collect exC1P [("k2", .num ⟨5, 0⟩)] = .ok exC1res
        ∧ Dict.find? exC1res "k" = Option.some (.num ⟨1, 0⟩)
        ∧ Dict.find? exC1res "k2" = Option.some (.num ⟨5, 0⟩)
        ∧ (Dict.keys exC1res).Perm ["k", "k2"]
        ∧ collect exC1P [] = .error (.notCollected "k2")) := by
  constructor
  · intro P fr res h
    have hcol : collect P fr =
        (match P.parameters.find? (fun p => (Dict.find? res p).isNone) with
          | Option.some p => Except.error (BErr.notCollected p)
          | Option.none => Except.ok res) := by
      unfold collect
      rw [h]
      rfl
    refine ⟨?_, ?_, ?_⟩
    · intro hall
      rw [hcol, List.find?_eq_none.mpr ?_]
      intro p hp
      have := hall p hp
      simp only [Option.isSome_iff_exists] at this
      rcases this with ⟨v, hv⟩
      simp [hv]
    · intro p0 hfind
      refine ⟨by rw [hcol, hfind], List.mem_of_find?_eq_some hfind, ?_⟩
      have := List.find?_some hfind
      simpa [Option.isNone_iff_eq_none] using this
    · rintro ⟨p, hp, hnone⟩
      cases hf : P.parameters.find? (fun p => (Dict.find? res p).isNone) with
      | none =>
        exfalso
        have := List.find?_eq_none.mp hf p hp
        simp [hnone] at this
      | some p0 =>
        refine ⟨p0, by rw [hcol, hf], List.mem_of_find?_eq_some hf, ?_⟩
        have := List.find?_some hf
        simpa [Option.isNone_iff_eq_none] using this
  · refine ⟨rfl, rfl, rfl, rfl, by decide, rfl⟩

theorem c1_collect_overlay_witness :
    collect exC1P [] = .error (.notCollected "k2")
    ∧ "k2" ∈ exC1P.parameters
    ∧ collect exC1P [("k2", .num ⟨5, 0⟩)] = .ok exC1res := by
  have h := (c1_collect_overlay).1 exC1P [] [("k", .num ⟨1, 0⟩)] rfl
  have h2 := h.2.1 "k2" rfl
  refine ⟨h2.1, h2.2.1, ?_⟩
  have h3 := (c1_collect_overlay).1 exC1P [("k2", .num ⟨5, 0⟩)] exC1res rfl
  exact h3.1 (by decide)

/-- Inversion of `mkBOLTSParameters`: a successfully constructed instance
determines every construction phase. -/
theorem mk_inversion {d : ParamDecl} {P : BOLTSParameters}
    (h : mkBOLTSParameters d = .ok P) :
    P.types = d.types
    ∧ mkLiteral d.types (d.literal.getD []) = .ok P.literal
    ∧ P.free = d.free.getD []
    ∧ P.description = d.description.getD []
    ∧ (∃ t2decls, (d.tables2d.getD []).mapM check2DDecl = .ok t2decls
        ∧ P.parameters
            = computeParameters P.literal (d.free.getD []) (d.tables.getD []) t2decls
        ∧ checkTypes d.types P.parameters = .ok ()
        ∧ checkDescription (d.description.getD []) P.parameters = .ok ()
        ∧ (d.tables.getD []).mapM (buildTable d.types) = .ok P.tables
        ∧ t2decls.mapM (buildTable2D d.types) = .ok P.tables2d)
    ∧ sortAllChoices (computeChoices (d.free.getD []) d.types P.tables P.tables2d)
        = .ok P.choices
    ∧ computeDefaults (d.free.getD []) d.types P.choices (d.defaults.getD [])
        = .ok P.defaults
    ∧ computeCommon d.common d.types P.choices (d.free.getD []) = .ok P.common := by
  unfold mkBOLTSParameters at h
  rcases exceptBindOk h with ⟨lit, hlit, h⟩
  rcases exceptBindOk h with ⟨t2d, ht2d, h⟩
  rcases exceptBindOk h with ⟨u1, hck1, h⟩
  rcases exceptBindOk h with ⟨u2, hck2, h⟩
  rcases exceptBindOk h with ⟨tabs, htabs, h⟩
  rcases exceptBindOk h with ⟨tabs2, htabs2, h⟩
  rcases exceptBindOk h with ⟨cho, hcho, h⟩
  rcases exceptBindOk h with ⟨dfl, hdfl, h⟩
  rcases exceptBindOk h with ⟨com, hcom, h⟩
  injection h with h
  subst h
  cases u1
  cases u2
  exact ⟨rfl, hlit, rfl, rfl, ⟨t2d, ht2d, rfl, hck1, hck2, htabs, htabs2⟩,
    hcho, hdfl, hcom⟩

/-- Modelled from the spec: the full cross-product of a sequence of
domains, expanded depth-first preserving the order of the domains. -/
def crossProd {α : Type} : List (List α) → List (List α)
  | [] => [[]]
  | dom :: ds => dom.flatMap (fun v => (crossProd ds).map (fun t => v :: t))

/-- The domain the wildcard expansion of `_populate_common` enumerates for
one free parameter: `True, False` for a `Bool`, the computed choices for a
`Table Index`, undefined otherwise. -/
def wildDomain (types : Dict String) (choices : Dict (List String)) (f : String) :
    Option (List Value) :=
  if Dict.find? types f = Option.some "Bool" then Option.some [.bool true, .bool false]
  else if Dict.find? types f = Option.some "Table Index" then
    (Dict.find? choices f).map (fun cs => cs.map Value.str)
  else Option.none

theorem mapM_option_isSome {α β : Type} {g : α → Option β} :
    ∀ {l : List α} {out : List β}, l.mapM g = Option.some out →
      ∀ x ∈ l, (g x).isSome = true := by
  intro l
  induction l with
  | nil => intro out h x hx; cases hx
  | cons a l ih =>
    intro out h x hx
    rw [List.mapM_cons] at h
    cases hg : g a with
    | none => rw [hg] at h; simp [bind, Option.bind] at h
    | some b =>
      rw [hg] at h
      cases hl : l.mapM g with
      | none => rw [hl] at h; simp [bind, Option.bind] at h
      | some bs =>
        rcases List.mem_cons.mp hx with rfl | hx
        · simp [hg]
        · exact ih hl x hx


theorem populate_loop_eq (k : List Value → Except BErr (List (List Value)))
    (ds : List (List Value))
    (hIH : ∀ values, k values = .ok ((crossProd ds).map (fun t => values ++ t))) :
    ∀ (vs : List Value) (values : List Value),
      populate_loop k values vs
        = .ok (vs.flatMap (fun v => (crossProd ds).map (fun t => values ++ v :: t))) := by
  intro vs
  induction vs with
  | nil => intro values; simp [populate_loop]
  | cons v vs ih =>
    intro values
    unfold populate_loop
    rw [hIH (values ++ [v]), ih values]
    simp only [bind, Except.bind, pure, Except.pure, List.flatMap_cons, Except.ok.injEq]
    congr 1
    apply List.map_congr_left
    intro t _
    simp

theorem crossProd_cons_map (values : List Value) (dom : List Value)
    (ds : List (List Value)) :
    (dom.flatMap (fun v => (crossProd ds).map (fun t => values ++ v :: t)))
      = ((crossProd (dom :: ds)).map (fun t => values ++ t)) := by
  simp only [crossProd, List.map_flatMap, List.map_map]
  rfl

theorem populate_common_wild_eq (types : Dict String) (choices : Dict (List String)) :
    ∀ (fs : List String) (doms : List (List Value)),
      fs.mapM (wildDomain types choices) = Option.some doms →
      ∀ values, populate_common types choices fs (fs.map (fun _ => Selector.wild)) values
        = .ok ((crossProd doms).map (fun t => values ++ t)) := by
  intro fs
  induction fs with
  | nil =>
    intro doms h values
    simp only [List.mapM_nil, pure, Option.some.injEq] at h
    subst h
    simp [populate_common, crossProd]
  | cons f fs ih =>
    intro doms h values
    rw [List.mapM_cons] at h
    cases hd : wildDomain types choices f with
    | none => rw [hd] at h; simp [bind, Option.bind] at h
    | some dom =>
      rw [hd] at h
      cases hds : List.mapM (wildDomain types choices) fs with
      | none => rw [hds] at h; simp [bind, Option.bind] at h
      | some ds =>
        rw [hds] at h
        simp only [bind, Option.bind, pure, Option.some.injEq] at h
        subst h
        have hIH := ih ds hds
        rw [List.map_cons]
        unfold populate_common
        unfold wildDomain at hd
        by_cases hb : Dict.find? types f = Option.some "Bool"
        · rw [if_pos hb] at hd
          rw [if_pos hb]
          injection hd with hd
          subst hd
          rw [populate_loop_eq
            (fun values2 => populate_common types choices fs (fs.map (fun _ => Selector.wild)) values2)
            ds hIH, crossProd_cons_map]
        · rw [if_neg hb] at hd
          rw [if_neg hb]
          by_cases ht : Dict.find? types f = Option.some "Table Index"
          · rw [if_pos ht] at hd
            rw [if_pos ht]
            cases hcs : Dict.find? choices f with
            | none => rw [hcs] at hd; simp at hd
            | some cs =>
              rw [hcs] at hd
              simp only [Option.map_some'] at hd
              injection hd with hd
              subst hd
              show populate_loop
                  (fun values2 =>
                    populate_common types choices fs (fs.map (fun _ => Selector.wild)) values2)
                  values (cs.map Value.str)
                = Except.ok (List.map (fun t => values ++ t)
                    (crossProd (cs.map Value.str :: ds)))
              rw [populate_loop_eq
                (fun values2 => populate_common types choices fs (fs.map (fun _ => Selector.wild)) values2)
                ds hIH, crossProd_cons_map]
          · rw [if_neg ht] at hd
            simp at hd

theorem wildDomain_isSome_discrete {types : Dict String} {choices : Dict (List String)}
    {f : String} (h : (wildDomain types choices f).isSome = true) :
    Dict.find? types f = Option.some "Bool"
      ∨ Dict.find? types f = Option.some "Table Index" := by
  unfold wildDomain at h
  by_cases hb : Dict.find? types f = Option.some "Bool"
  · exact Or.inl hb
  · rw [if_neg hb] at h
    by_cases ht : Dict.find? types f = Option.some "Table Index"
    · exact Or.inr ht
    · rw [if_neg ht] at h; simp at h

/-- The declaration of the spec's enumeration example: free parameters
`b` of type `Bool` and `t` of type `Table Index` whose choices are
`M3, M4`, and no `common` key. -/
def exC2decl : ParamDecl :=
  { types := [("b", "Bool"), ("t", "Table Index"), ("d", "Number")],
    free := Option.some ["b", "t"],
    tables := Option.some [⟨"t", ["d"], [("M3", ["3"]), ("M4", ["4"])]⟩] }

/-- The parameter set `exC2decl` constructs. -/
def exC2P : BOLTSParameters :=
  ⟨[("b", "Bool"), ("t", "Table Index"), ("d", "Number")], [], ["b", "t"],
    [⟨"t", ["d"], [("M3", [.num ⟨3, 0⟩]), ("M4", [.num ⟨4, 0⟩])]⟩], [], [],
    ["b", "t", "d"], [("t", ["M3", "M4"])],
    [("b", .bool false), ("t", .str "")],
    Option.some [[.bool true, .str "M3"], [.bool true, .str "M4"],
      [.bool false, .str "M3"], [.bool false, .str "M4"]]⟩

/-- C2: when the declaration omits `common` and every free parameter has a
discrete wildcard domain (`True, False` for `Bool`, the computed choice
list for `Table Index`), the common-combination list is exactly the full
cross-product of those domains in free-parameter declaration order,
expanded depth-first; for free parameters `b : Bool` and
`t : Table Index` with choices `M3, M4` it is exactly the four tuples
`(True, M3), (True, M4), (False, M3), (False, M4)` in that order, and
with zero free parameters it is exactly one empty tuple. -/
theorem c2_common_cross_product :
    (∀ (d : ParamDecl) (P : BOLTSParameters),
      mkBOLTSParameters d = .ok P → d.common = Option.none →
      ∀ doms, P.free.mapM (wildDomain P.types P.choices) = Option.some doms →
        P.common = Option.some (crossProd doms))
    ∧ (mkBOLTSParameters exC2decl = .ok exC2P
        ∧ exC2P.free = ["b", "t"]
        ∧ Dict.find? exC2P.types "b" = Option.some "Bool"
        ∧ Dict.find? exC2P.types "t" = Option.some "Table Index"
        ∧ Dict.find? exC2P.choices "t" = Option.some ["M3", "M4"]
        ∧ exC2P.common = Option.some
            [[.bool true, .str "M3"], [.bool true, .str "M4"],
             [.bool false, .str "M3"], [.bool false, .str "M4"]])
    ∧ (∀ (d : ParamDecl) (P : BOLTSParameters),
        mkBOLTSParameters d = .ok P → d.common = Option.none → P.free = [] →
        P.common = Option.some [[]]) := by
  refine ⟨?_, ⟨by decide, rfl, rfl, rfl, rfl, rfl⟩, ?_⟩
  · intro d P h hnone doms hdoms
    obtain ⟨hty, -, hfree, -, -, -, -, hcom⟩ := mk_inversion h
    rw [hty, hfree] at hdoms
    rw [hnone] at hcom
    simp only [computeCommon] at hcom
    have hall : ((d.free.getD []).all (fun p =>
        match Dict.find? d.types p with
        | Option.some t => decide (t ∈ (["Bool", "Table Index"] : List String))
        | Option.none => false)) = true := by
      rw [List.all_eq_true]
      intro p hp
      rcases wildDomain_isSome_discrete
          (mapM_option_isSome hdoms p hp) with hB | hT
      · rw [hB]; decide
      · rw [hT]; decide
    rw [if_pos hall] at hcom
    by_cases hlen : (d.free.getD []).length > 0
    · rw [if_pos hlen] at hcom
      rw [populate_common_wild_eq d.types P.choices (d.free.getD []) doms hdoms []] at hcom
      simp only [bind, Except.bind, pure, Except.pure, Except.ok.injEq] at hcom
      rw [← hcom]
      congr 1
      simp
    · rw [if_neg hlen] at hcom
      have hfl : d.free.getD [] = [] := by
        cases hfl : d.free.getD [] with
        | nil => rfl
        | cons a l => rw [hfl] at hlen; simp at hlen
      rw [hfl] at hdoms
      simp only [List.mapM_nil, pure, Option.some.injEq] at hdoms
      subst hdoms
      injection hcom with hcom
      rw [← hcom]
      rfl
  · intro d P h hnone hfreenil
    obtain ⟨-, -, hfree, -, -, -, -, hcom⟩ := mk_inversion h
    rw [hnone] at hcom
    have hfl : d.free.getD [] = [] := hfree.symm.trans hfreenil
    rw [hfl] at hcom
    simp only [computeCommon, List.all_nil, List.length_nil, gt_iff_lt,
      Nat.lt_irrefl, if_true, if_false] at hcom
    injection hcom with hcom
    exact hcom.symm

theorem c2_common_cross_product_witness :
    exC2P.common = Option.some
      [[.bool true, .str "M3"], [.bool true, .str "M4"],
       [.bool false, .str "M3"], [.bool false, .str "M4"]] := by
  have h := c2_common_cross_product.1 exC2decl exC2P (by decide) rfl
    [[Value.bool true, Value.bool false], [Value.str "M3", Value.str "M4"]] (by decide)
  exact h.trans (by decide)


theorem defaultFor_ok {types : Dict String} {p : String} {kv : String × Value}
    (h : defaultFor types p = .ok kv) :
    ∃ ty dv, Dict.find? types p = Option.some ty
      ∧ Dict.find? type_defaults ty = Option.some dv ∧ kv = (p, dv) := by
  unfold defaultFor at h
  split at h
  · simp at h
  · next ty hty =>
    split at h
    · simp at h
    · next dv hdv =>
      injection h with h
      exact ⟨ty, dv, hty, hdv, h.symm⟩

theorem computeDefaults_base {free : List String} {types : Dict String}
    {base : Dict Value} (h : free.mapM (defaultFor types) = .ok base) :
    ∀ f ∈ free, ∃ ty dv, Dict.find? types f = Option.some ty
      ∧ Dict.find? type_defaults ty = Option.some dv
      ∧ Dict.find? base f = Option.some dv := by
  induction free generalizing base with
  | nil => intro f hf; cases hf
  | cons p free ih =>
    intro f hf
    rw [List.mapM_cons] at h
    rcases exceptBindOk h with ⟨kv, hkv, h⟩
    rcases exceptBindOk h with ⟨base2, hbase2, h⟩
    injection h with h
    subst h
    rcases defaultFor_ok hkv with ⟨ty, dv, hty, hdv, rfl⟩
    by_cases hpf : p = f
    · subst hpf
      exact ⟨ty, dv, hty, hdv, by simp [Dict.find?, List.find?]⟩
    · rcases List.mem_cons.mp hf with rfl | hf2
      · exact absurd rfl hpf
      · rcases ih hbase2 f hf2 with ⟨ty2, dv2, h1, h2, h3⟩
        refine ⟨ty2, dv2, h1, h2, ?_⟩
        have hb : (p == f) = false := by simp [hpf]
        simp only [Dict.find?, List.find?, hb] at h3 ⊢
        exact h3

theorem applyDefault_ok {free : List String} {types : Dict String}
    {choices : Dict (List String)} {acc : Dict Value} {kv : String × Value}
    {out : Dict Value}
    (h : applyDefault free types choices acc kv = .ok out) :
    out = Dict.insert acc kv.1 kv.2
    ∧ kv.1 ∈ free
    ∧ (Dict.find? types kv.1 = Option.some "Table Index" →
        ∃ cs, Dict.find? choices kv.1 = Option.some cs
          ∧ cs.any (fun c => kv.2.eqv (.str c)) = true) := by
  unfold applyDefault at h
  split at h
  · simp at h
  · next hmem =>
    rw [not_not] at hmem
    split at h
    · next hti =>
      split at h
      · simp at h
      · next cs hcs =>
        split at h
        · simp at h
        · next hany =>
          rw [not_not] at hany
          injection h with h
          exact ⟨h.symm, hmem, fun _ => ⟨cs, hcs, hany⟩⟩
    · next hti =>
      injection h with h
      exact ⟨h.symm, hmem, fun hc => absurd hc hti⟩

theorem computeDefaults_explicit {free : List String} {types : Dict String}
    {choices : Dict (List String)} :
    ∀ {explicit : Dict Value} {acc final : Dict Value},
    (explicit.foldlM (applyDefault free types choices) acc = .ok final) →
    (∀ k v, (k, v) ∈ explicit →
      k ∈ free
      ∧ (Dict.find? types k = Option.some "Table Index" →
          ∃ cs, Dict.find? choices k = Option.some cs
            ∧ cs.any (fun c => v.eqv (.str c)) = true))
    ∧ ((Dict.keys explicit).Nodup → ∀ f,
        Dict.find? final f =
          match Dict.find? explicit f with
          | Option.some v => Option.some v
          | Option.none => Dict.find? acc f) := by
  intro explicit
  induction explicit with
  | nil =>
    intro acc final h
    rw [List.foldlM_nil] at h
    injection h with h
    subst h
    exact ⟨fun k v hkv => absurd hkv (List.not_mem_nil _), fun _ f => rfl⟩
  | cons kv rest ih =>
    intro acc final h
    rw [List.foldlM_cons] at h
    rcases exceptBindOk h with ⟨acc2, hstep, h⟩
    rcases applyDefault_ok hstep with ⟨hacc2, hmem, hTI⟩
    subst hacc2
    rcases ih h with ⟨hvalid, hfind⟩
    refine ⟨?_, ?_⟩
    · intro k v hkv2
      rcases List.mem_cons.mp hkv2 with heq | hin
      · cases heq
        exact ⟨hmem, hTI⟩
      · exact hvalid k v hin
    · intro hnd f
      simp only [Dict.keys, List.map_cons, List.nodup_cons] at hnd
      rw [hfind hnd.2 f]
      by_cases hf : kv.1 = f
      · subst hf
        have hnone : Dict.find? rest kv.1 = Option.none :=
          (Dict.find?_eq_none rest kv.1).mpr (by simpa [Dict.keys] using hnd.1)
        have hcons : Dict.find? (kv :: rest) kv.1 = Option.some kv.2 := by
          simp [Dict.find?, List.find?]
        rw [hnone, hcons, Dict.find?_insert_self]
      · have hcons : Dict.find? (kv :: rest) f = Dict.find? rest f := by
          have hb : (kv.1 == f) = false := by simp [hf]
          simp [Dict.find?, List.find?, hb]
        rw [hcons, Dict.find?_insert_of_ne _ _ (fun hc => hf hc.symm)]

/-- A declaration whose explicit default for the `Table Index` parameter
`t` is not one of its choices. -/
def exC7bad : ParamDecl :=
  { types := [("b", "Bool"), ("t", "Table Index"), ("d", "Number")],
    free := Option.some ["b", "t"],
    tables := Option.some [⟨"t", ["d"], [("M3", ["3"]), ("M4", ["4"])]⟩],
    defaults := Option.some [("t", .str "M9")] }

/-- A declaration whose explicit default for the `Number` parameter `k2`
is a string: the source stores it without any re-validation. -/
def exC7odd : ParamDecl :=
  { types := [("k", "Number"), ("k2", "Number")],
    literal := Option.some [("k", "1")],
    free := Option.some ["k2"],
    defaults := Option.some [("k2", .str "nonsense")] }

/-- The parameter set `exC7odd` constructs. -/
def exC7oddP : BOLTSParameters :=
  ⟨[("k", "Number"), ("k2", "Number")], [("k", .num ⟨1, 0⟩)], ["k2"], [], [], [],
    ["k", "k2"], [], [("k2", .str "nonsense")], Option.none⟩

/-- C7: after construction every free parameter has a default value — the
built-in default of its declared type unless the declaration's `defaults`
mapping supplies an explicit entry, which overrides it; construction only
succeeds when every explicit entry names a free parameter and every
explicit `Table Index` default is a member of that parameter's computed
choice set (so a non-member raises an error, as on `exC7bad`); explicit
defaults of every other type are stored without any further range or type
re-validation (`exC7odd` stores a string default for a `Number`
parameter). -/
theorem c7_defaults :
    (∀ (d : ParamDecl) (P : BOLTSParameters), mkBOLTSParameters d = .ok P →
      (Dict.keys (d.defaults.getD [])).Nodup →
      ∀ f ∈ P.free, ∃ ty dv, Dict.find? P.types f = Option.some ty
        ∧ Dict.find? type_defaults ty = Option.some dv
        ∧ Dict.find? P.defaults f
            = Option.some ((Dict.find? (d.defaults.getD []) f).getD dv))
    ∧ (∀ (d : ParamDecl) (P : BOLTSParameters), mkBOLTSParameters d = .ok P →
        ∀ k v, (k, v) ∈ d.defaults.getD [] →
          k ∈ P.free
          ∧ (Dict.find? P.types k = Option.some "Table Index" →
              ∃ cs, Dict.find? P.choices k = Option.some cs
                ∧ cs.any (fun c => v.eqv (.str c)) = true))
    ∧ mkBOLTSParameters exC7bad = .error (.invalidTableIndex "t" (.str "M9"))
    ∧ (mkBOLTSParameters exC7odd = .ok exC7oddP
        ∧ Dict.find? exC7oddP.defaults "k2" = Option.some (.str "nonsense")) := by
  refine ⟨?_, ?_, by decide, by decide, rfl⟩
  · intro d P h hnd f hf
    obtain ⟨hty, -, hfree, -, -, -, hdfl, -⟩ := mk_inversion h
    unfold computeDefaults at hdfl
    rcases exceptBindOk hdfl with ⟨base, hbase, hfold⟩
    rw [hfree] at hf
    rcases computeDefaults_base hbase f hf with ⟨ty, dv, hty2, hdv, hbf⟩
    refine ⟨ty, dv, by rw [hty]; exact hty2, hdv, ?_⟩
    rw [(computeDefaults_explicit hfold).2 hnd f]
    cases hex : Dict.find? (d.defaults.getD []) f with
    | some v => rfl
    | none => rw [hbf]; rfl
  · intro d P h k v hkv
    obtain ⟨hty, -, hfree, -, -, -, hdfl, -⟩ := mk_inversion h
    unfold computeDefaults at hdfl
    rcases exceptBindOk hdfl with ⟨base, hbase, hfold⟩
    rcases (computeDefaults_explicit hfold).1 k v hkv with ⟨hmem, hTI⟩
    exact ⟨by rw [hfree]; exact hmem, fun hc => hTI (by rw [← hty]; exact hc)⟩

theorem c7_defaults_witness :
    Dict.find? exC2P.defaults "b" = Option.some (.bool false)
    ∧ "t" ∈ exC2P.free := by
  constructor
  · have h := c7_defaults.1 exC2decl exC2P (by decide) (by decide) "b" (by decide)
    rcases h with ⟨ty, dv, hty, hdv, hdf⟩
    have h1 : Option.some "Bool" = Option.some ty :=
      (show Dict.find? exC2P.types "b" = Option.some "Bool" by decide).symm.trans hty
    injection h1 with h1
    subst h1
    have h2 : Option.some (Value.bool false) = Option.some dv :=
      (show Dict.find? type_defaults "Bool" = Option.some (Value.bool false)
        by decide).symm.trans hdv
    injection h2 with h2
    subst h2
    exact hdf.trans (by decide)
  · decide

theorem c5_numerical_sorting_bug_witness : (numericalGroup "M3").isSome = true :=
  c5_numerical_sorting_bug.2.2.2.2.2.2 "M3" (by decide)

/-- Modelled from the spec: the key/column sets of every table that
references `pname`, in the order the constructor visits them — 1D tables
referencing it as index contribute their key sets, then 2D tables
referencing it as rowindex contribute their key sets or as colindex their
column sets (rowindex takes precedence). -/
def choiceRefSets (tables : List BOLTSTable) (tables2d : List BOLTSTable2D)
    (pname : String) : List (List String) :=
  (tables.filter (fun t => t.index = pname)).map (fun t => Dict.keys t.data)
    ++ tables2d.filterMap (fun t =>
      if t.rowindex = pname then Option.some (Dict.keys t.data)
      else if t.colindex = pname then Option.some t.columns
      else Option.none)

/-- The seed-then-intersect fold underlying the choice-set accumulation:
the first referenced set seeds (as a set, i.e. deduplicated), every later
one intersects. -/
def seedInter (acc : Option (List String)) (refs : List (List String)) :
    Option (List String) :=
  refs.foldl (fun a S =>
    match a with
    | Option.none => Option.some S.dedup
    | Option.some s => Option.some (s.filter (fun x => x ∈ S))) acc

theorem seedInter_some : ∀ (refs : List (List String)) (s : List String),
    ∃ s2, seedInter (Option.some s) refs = Option.some s2
      ∧ (∀ x, x ∈ s2 ↔ x ∈ s ∧ ∀ S ∈ refs, x ∈ S)
  | [], s => ⟨s, rfl, by simp⟩
  | S :: refs, s => by
    rcases seedInter_some refs (s.filter (fun x => x ∈ S)) with ⟨s2, h1, h2⟩
    refine ⟨s2, h1, ?_⟩
    intro x
    rw [h2 x]
    simp only [List.mem_filter, List.forall_mem_cons, decide_eq_true_eq]
    tauto

theorem seedInter_none_cons (S0 : List String) (Ss : List (List String)) :
    ∃ s, seedInter Option.none (S0 :: Ss) = Option.some s
      ∧ (∀ x, x ∈ s ↔ ∀ S ∈ S0 :: Ss, x ∈ S) := by
  rcases seedInter_some Ss S0.dedup with ⟨s2, h1, h2⟩
  refine ⟨s2, h1, ?_⟩
  intro x
  rw [h2 x]
  simp only [List.mem_dedup, List.forall_mem_cons]

theorem choiceSetFor_tables_fold (pname : String) :
    ∀ (tables : List BOLTSTable) (acc : Option (List String)),
      tables.foldl (fun acc t =>
        if t.index = pname then
          match acc with
          | Option.none => Option.some (Dict.keys t.data).dedup
          | Option.some s => Option.some (s.filter (fun x => x ∈ Dict.keys t.data))
        else acc) acc
      = ((tables.filter (fun t => t.index = pname)).map
          (fun t => Dict.keys t.data)).foldl
          (fun a S =>
            match a with
            | Option.none => Option.some S.dedup
            | Option.some s => Option.some (s.filter (fun x => x ∈ S))) acc
  | [], acc => rfl
  | t :: tables, acc => by
    simp only [List.foldl_cons, List.filter_cons]
    by_cases hidx : t.index = pname
    · rw [if_pos hidx, if_pos (by simp [hidx])]
      exact choiceSetFor_tables_fold pname tables _
    · rw [if_neg hidx, if_neg (by simp [hidx])]
      exact choiceSetFor_tables_fold pname tables acc

theorem choiceSetFor_tables2d_fold (pname : String) :
    ∀ (tables2d : List BOLTSTable2D) (acc : Option (List String)),
      tables2d.foldl (fun acc t =>
        if t.rowindex = pname then
          match acc with
          | Option.none => Option.some (Dict.keys t.data).dedup
          | Option.some s => Option.some (s.filter (fun x => x ∈ Dict.keys t.data))
        else if t.colindex = pname then
          match acc with
          | Option.none => Option.some t.columns.dedup
          | Option.some s => Option.some (s.filter (fun x => x ∈ t.columns))
        else acc) acc
      = (tables2d.filterMap (fun t =>
          if t.rowindex = pname then Option.some (Dict.keys t.data)
          else if t.colindex = pname then Option.some t.columns
          else Option.none)).foldl
          (fun a S =>
            match a with
            | Option.none => Option.some S.dedup
            | Option.some s => Option.some (s.filter (fun x => x ∈ S))) acc
  | [], acc => rfl
  | t :: t2, acc => by
    simp only [List.foldl_cons, List.filterMap_cons]
    by_cases hrow : t.rowindex = pname
    · rw [if_pos hrow, if_pos hrow]
      exact choiceSetFor_tables2d_fold pname t2 _
    · rw [if_neg hrow, if_neg hrow]
      by_cases hcol : t.colindex = pname
      · rw [if_pos hcol, if_pos hcol]
        exact choiceSetFor_tables2d_fold pname t2 _
      · rw [if_neg hcol, if_neg hcol]
        exact choiceSetFor_tables2d_fold pname t2 acc

theorem choiceSetFor_eq_seedInter (tables : List BOLTSTable)
    (tables2d : List BOLTSTable2D) (pname : String) :
    choiceSetFor tables tables2d pname
      = seedInter Option.none (choiceRefSets tables tables2d pname) := by
  unfold choiceSetFor choiceRefSets seedInter
  rw [List.foldl_append, choiceSetFor_tables_fold pname tables Option.none,
    choiceSetFor_tables2d_fold pname tables2d]

theorem computeChoices_fold_find? (types : Dict String)
    (tables : List BOLTSTable) (tables2d : List BOLTSTable2D) (p : String) :
    ∀ (free : List String) (d0 : Dict (List String)),
      Dict.find? (free.foldl (fun d pname =>
        if Dict.find? types pname = Option.some "Table Index" then
          match choiceSetFor tables tables2d pname with
          | Option.some s => d.insert pname s
          | Option.none => d
        else d) d0) p
      = if p ∈ free ∧ Dict.find? types p = Option.some "Table Index" then
          (match choiceSetFor tables tables2d p with
           | Option.some s => Option.some s
           | Option.none => Dict.find? d0 p)
        else Dict.find? d0 p
  | [], d0 => by
    simp only [List.foldl_nil, List.not_mem_nil, false_and, if_false]
  | q :: free, d0 => by
    rw [List.foldl_cons, computeChoices_fold_find? types tables tables2d p free _]
    have hd1 : Dict.find? (if Dict.find? types q = Option.some "Table Index" then
        match choiceSetFor tables tables2d q with
        | Option.some s => Dict.insert d0 q s
        | Option.none => d0
      else d0) p
      = if p = q ∧ Dict.find? types p = Option.some "Table Index" then
          (match choiceSetFor tables tables2d p with
           | Option.some s => Option.some s
           | Option.none => Dict.find? d0 p)
        else Dict.find? d0 p := by
      by_cases hpq : p = q
      · subst hpq
        by_cases hti : Dict.find? types p = Option.some "Table Index"
        · rw [if_pos hti,
            if_pos (show p = p ∧ Dict.find? types p = Option.some "Table Index"
              from ⟨rfl, hti⟩)]
          cases hcs : choiceSetFor tables tables2d p with
          | none => rfl
          | some s => exact Dict.find?_insert_self d0 p s
        · rw [if_neg hti,
            if_neg (show ¬ (p = p ∧ Dict.find? types p = Option.some "Table Index")
              from fun hc => hti hc.2)]
      · rw [if_neg (show ¬ (p = q ∧ Dict.find? types p = Option.some "Table Index")
          from fun hc => hpq hc.1)]
        by_cases hti : Dict.find? types q = Option.some "Table Index"
        · rw [if_pos hti]
          cases hcs : choiceSetFor tables tables2d q with
          | none => rfl
          | some s => exact Dict.find?_insert_of_ne d0 s hpq
        · rw [if_neg hti]
    rw [hd1]
    by_cases hti : Dict.find? types p = Option.some "Table Index"
    · by_cases hin : p ∈ free
      · rw [if_pos (show p ∈ free ∧ Dict.find? types p = Option.some "Table Index"
            from ⟨hin, hti⟩),
          if_pos (show p ∈ q :: free ∧ Dict.find? types p = Option.some "Table Index"
            from ⟨List.mem_cons_of_mem q hin, hti⟩)]
        cases hcs : choiceSetFor tables tables2d p with
        | some s => rfl
        | none =>
          by_cases hpq : p = q
          · rw [if_pos (show p = q ∧ Dict.find? types p = Option.some "Table Index"
              from ⟨hpq, hti⟩)]
          · rw [if_neg (show ¬ (p = q ∧ Dict.find? types p = Option.some "Table Index")
              from fun hc => hpq hc.1)]
      · rw [if_neg (show ¬ (p ∈ free ∧ Dict.find? types p = Option.some "Table Index")
          from fun hc => hin hc.1)]
        by_cases hpq : p = q
        · have hmem : p ∈ q :: free := by rw [hpq]; exact List.mem_cons_self q free
          rw [if_pos (show p = q ∧ Dict.find? types p = Option.some "Table Index"
              from ⟨hpq, hti⟩),
            if_pos (show p ∈ q :: free ∧ Dict.find? types p = Option.some "Table Index"
              from ⟨hmem, hti⟩)]
        · rw [if_neg (show ¬ (p = q ∧ Dict.find? types p = Option.some "Table Index")
            from fun hc => hpq hc.1),
            if_neg (show ¬ (p ∈ q :: free
                ∧ Dict.find? types p = Option.some "Table Index")
              from fun hc => (List.mem_cons.mp hc.1).elim hpq hin)]
    · rw [if_neg (show ¬ (p ∈ free ∧ Dict.find? types p = Option.some "Table Index")
        from fun hc => hti hc.2),
        if_neg (show ¬ (p = q ∧ Dict.find? types p = Option.some "Table Index")
          from fun hc => hti hc.2),
        if_neg (show ¬ (p ∈ q :: free ∧ Dict.find? types p = Option.some "Table Index")
          from fun hc => hti hc.2)]

theorem computeChoices_find? (free : List String) (types : Dict String)
    (tables : List BOLTSTable) (tables2d : List BOLTSTable2D) (p : String) :
    Dict.find? (computeChoices free types tables tables2d) p
      = if p ∈ free ∧ Dict.find? types p = Option.some "Table Index" then
          choiceSetFor tables tables2d p
        else Option.none := by
  unfold computeChoices
  rw [computeChoices_fold_find? types tables tables2d p free []]
  by_cases hc : p ∈ free ∧ Dict.find? types p = Option.some "Table Index"
  · rw [if_pos hc, if_pos hc]
    cases hcs : choiceSetFor tables tables2d p with
    | none => rfl
    | some s => rfl
  · rw [if_neg hc, if_neg hc]
    rfl

theorem sortAllChoices_find? :
    ∀ {choices sorted : Dict (List String)},
      sortAllChoices choices = .ok sorted → ∀ p,
      (Dict.find? choices p = Option.none → Dict.find? sorted p = Option.none)
      ∧ (∀ cs, Dict.find? choices p = Option.some cs →
          ∃ out, sortChoices cs = .ok out
            ∧ Dict.find? sorted p = Option.some out) := by
  intro choices
  induction choices with
  | nil =>
    intro sorted h p
    unfold sortAllChoices at h
    rw [List.mapM_nil] at h
    injection h with h
    subst h
    exact ⟨fun _ => rfl, fun cs hcs => by simp [Dict.find?] at hcs⟩
  | cons kv rest ih =>
    intro sorted h p
    unfold sortAllChoices at h
    rw [List.mapM_cons] at h
    rcases exceptBindOk h with ⟨s0, hs0, h⟩
    rcases exceptBindOk hs0 with ⟨out0, hout0, hs0⟩
    injection hs0 with hs0
    rcases exceptBindOk h with ⟨rest2, hrest, h⟩
    injection h with h
    subst h
    subst hs0
    have ihp := ih (show sortAllChoices rest = .ok rest2 from hrest) p
    by_cases hpk : kv.1 = p
    · have hhead : Dict.find? (kv :: rest) p = Option.some kv.2 := by
        simp [Dict.find?, List.find?, hpk]
      have hhead2 : Dict.find? ((kv.1, out0) :: rest2) p = Option.some out0 := by
        simp [Dict.find?, List.find?, hpk]
      refine ⟨fun hcn => absurd (hhead.symm.trans hcn) (by simp), ?_⟩
      intro cs hcs
      have : Option.some kv.2 = Option.some cs := hhead.symm.trans hcs
      injection this with this
      subst this
      exact ⟨out0, hout0, hhead2⟩
    · have hb : (kv.1 == p) = false := by simp [hpk]
      have hskip : Dict.find? (kv :: rest) p = Dict.find? rest p := by
        simp [Dict.find?, List.find?, hb]
      have hskip2 : Dict.find? ((kv.1, out0) :: rest2) p = Dict.find? rest2 p := by
        simp [Dict.find?, List.find?, hb]
      rw [hskip, hskip2]
      exact ihp

/-- The declaration of the spec's choice-set example. -/
def exC3decl : ParamDecl :=
  { types := [("size", "Table Index"), ("d1", "Length (mm)"), ("d2", "Length (mm)")],
    free := Option.some ["size"],
    tables := Option.some [⟨"size", ["d1", "d2"],
      [("M3", ["3.0", "5.5"]), ("M4", ["4.0", "7.0"])]⟩] }

/-- The parameter set `exC3decl` constructs. -/
def exC3P : BOLTSParameters :=
  ⟨[("size", "Table Index"), ("d1", "Length (mm)"), ("d2", "Length (mm)")], [],
    ["size"],
    [⟨"size", ["d1", "d2"],
      [("M3", [.num ⟨30, 1⟩, .num ⟨55, 1⟩]), ("M4", [.num ⟨40, 1⟩, .num ⟨70, 1⟩])]⟩],
    [], [], ["size", "d1", "d2"], [("size", ["M3", "M4"])], [("size", .str "")],
    Option.some [[.str "M3"], [.str "M4"]]⟩

/-- C3: for every free parameter of type `Table Index`, the computed
choice list has exactly the members of the intersection of the key/column
sets of every table referencing the parameter (the first reference seeds
the set, each later one intersects; no referencing table means no choice
entry), ordered by the selected sorting strategy.  On the spec's example
table (index `size`, rows `M3`/`M4`) the choices of `size` are exactly
`M3, M4`, via the Numerical strategy (extracted keys 3 and 4). -/
theorem c3_choices :
    (∀ (d : ParamDecl) (P : BOLTSParameters), mkBOLTSParameters d = .ok P →
      ∀ p ∈ P.free, Dict.find? P.types p = Option.some "Table Index" →
        (choiceRefSets P.tables P.tables2d p = [] →
          Dict.find? P.choices p = Option.none)
        ∧ (∀ S0 Ss, choiceRefSets P.tables P.tables2d p = S0 :: Ss →
          ∃ cs, Dict.find? P.choices p = Option.some cs
            ∧ (∀ x, x ∈ cs ↔ ∀ S ∈ choiceRefSets P.tables P.tables2d p, x ∈ S)
            ∧ sortedByStrategy cs))
    ∧ (mkBOLTSParameters exC3decl = .ok exC3P
        ∧ Dict.find? exC3P.choices "size" = Option.some ["M3", "M4"]
        ∧ Numerical.is_applicable ["M3", "M4"] = true
        ∧ numericalKey "M3" = Option.some ⟨3, 0⟩
        ∧ numericalKey "M4" = Option.some ⟨4, 0⟩) := by
  refine ⟨?_, by decide, rfl, by decide, by decide, by decide⟩
  intro d P h p hp hti
  obtain ⟨hty, -, hfree, -, -, hcho, -, -⟩ := mk_inversion h
  have hcc := computeChoices_find? (d.free.getD []) d.types P.tables P.tables2d p
  rw [if_pos ⟨by rw [← hfree]; exact hp, by rw [← hty]; exact hti⟩] at hcc
  rw [choiceSetFor_eq_seedInter] at hcc
  have hsort := sortAllChoices_find? hcho p
  constructor
  · intro hrefs
    rw [hrefs] at hcc
    exact hsort.1 hcc
  · intro S0 Ss hrefs
    rw [hrefs] at hcc
    rcases seedInter_none_cons S0 Ss with ⟨s, hseed, hmem⟩
    rw [hseed] at hcc
    rcases hsort.2 s hcc with ⟨out, hout, hfind⟩
    rcases sortChoices_ok hout with ⟨hperm, hsorted⟩
    refine ⟨out, hfind, ?_, hsorted⟩
    intro x
    rw [hperm.mem_iff, hmem x, ← hrefs]

theorem c3_choices_witness :
    Dict.find? exC3P.choices "size" = Option.some ["M3", "M4"]
    ∧ sortedByStrategy ["M3", "M4"]
    ∧ ("M3" ∈ (["M3", "M4"] : List String)
        ↔ ∀ S ∈ choiceRefSets exC3P.tables exC3P.tables2d "size", "M3" ∈ S) := by
  have h := (c3_choices.1 exC3decl exC3P (by decide) "size" (by decide) (by decide)).2
    ["M3", "M4"] [] (by decide)
  rcases h with ⟨cs, hfind, hmem, hsorted⟩
  have hcs : Option.some (["M3", "M4"] : List String) = Option.some cs :=
    (show Dict.find? exC3P.choices "size" = Option.some ["M3", "M4"]
      by decide).symm.trans hfind
  injection hcs with hcs
  subst hcs
  exact ⟨hfind, hsorted, hmem "M3"⟩

/-- Two dicts that agree on every key other than `k`. -/
def Dict.eqOff {α : Type} (k : String) (d1 d2 : Dict α) : Prop :=
  ∀ j, j ≠ k → Dict.find? d1 j = Dict.find? d2 j

theorem Dict.eqOff_symm {α : Type} {k : String} {d1 d2 : Dict α}
    (h : Dict.eqOff k d1 d2) : Dict.eqOff k d2 d1 :=
  fun j hj => (h j hj).symm

theorem Dict.eqOff_insert {α : Type} {k : String} {d1 d2 : Dict α}
    (h : Dict.eqOff k d1 d2) (a : String) (v : α) :
    Dict.eqOff k (d1.insert a v) (d2.insert a v) := by
  intro j hj
  by_cases hja : j = a
  · subst hja
    rw [Dict.find?_insert_self, Dict.find?_insert_self]
  · rw [Dict.find?_insert_of_ne _ _ hja, Dict.find?_insert_of_ne _ _ hja]
    exact h j hj

theorem Dict.eqOff_update {α : Type} {k : String} {d1 d2 : Dict α}
    (h : Dict.eqOff k d1 d2) (e : Dict α) :
    Dict.eqOff k (d1.update e) (d2.update e) := by
  induction e generalizing d1 d2 with
  | nil => exact h
  | cons kv e ih => exact ih (Dict.eqOff_insert h kv.1 kv.2)

theorem Dict.mem_keys_eraseKey {α : Type} {d : Dict α} {k j : String}
    (h : j ∈ Dict.keys (d.eraseKey k)) : j ∈ Dict.keys d := by
  simp only [Dict.keys, Dict.eraseKey, List.mem_map] at h ⊢
  rcases h with ⟨kv, hkv, rfl⟩
  exact ⟨kv, List.mem_of_mem_filter hkv, rfl⟩

theorem Dict.mem_keys_update {α : Type} {e d : Dict α} {j : String}
    (h : j ∈ Dict.keys (d.update e)) : j ∈ Dict.keys d ∨ j ∈ Dict.keys e := by
  induction e generalizing d with
  | nil => exact Or.inl h
  | cons kv e ih =>
    rcases ih h with hd | he
    · have hd2 : j = kv.1 ∨ j ∈ Dict.keys (d.eraseKey kv.1) := by
        simpa [Dict.insert, Dict.keys] using hd
      rcases hd2 with heq | h2
      · exact Or.inr (by simp [Dict.keys, heq])
      · exact Or.inl (Dict.mem_keys_eraseKey h2)
    · refine Or.inr ?_
      simp only [Dict.keys, List.map_cons, List.mem_cons]
      exact Or.inr (by simpa [Dict.keys] using he)

/-- Updating with the erased dict instead of the full one only changes the
binding of `k`. -/
theorem Dict.eqOff_update_eraseKey {α : Type} {k : String} (fr : Dict α) :
    ∀ {d1 d2 : Dict α}, Dict.eqOff k d1 d2 →
      Dict.eqOff k (d1.update fr) (d2.update (fr.eraseKey k)) := by
  induction fr with
  | nil => intro d1 d2 h; exact h
  | cons kv fr ih =>
    intro d1 d2 h
    by_cases hk : kv.1 = k
    · have herase : Dict.eraseKey (kv :: fr) k = Dict.eraseKey fr k := by
        simp [Dict.eraseKey, List.filter_cons, hk]
      rw [herase]
      have h2 : Dict.eqOff k (d1.insert kv.1 kv.2) d2 := by
        intro j hj
        rw [Dict.find?_insert_of_ne _ _ (by rw [hk]; exact hj)]
        exact h j hj
      exact ih h2
    · have herase : Dict.eraseKey (kv :: fr) k = kv :: Dict.eraseKey fr k := by
        simp [Dict.eraseKey, List.filter_cons, hk]
      rw [herase]
      exact ih (Dict.eqOff_insert h kv.1 kv.2)

theorem mapM_except_forall {eps alpha beta : Type} {f : alpha → Except eps beta} :
    ∀ {l : List alpha} {out : List beta}, l.mapM f = .ok out →
      ∀ b ∈ out, ∃ a ∈ l, f a = .ok b := by
  intro l
  induction l with
  | nil =>
    intro out h b hb
    rw [List.mapM_nil] at h
    injection h with h
    subst h
    cases hb
  | cons a l ih =>
    intro out h b hb
    rw [List.mapM_cons] at h
    rcases exceptBindOk h with ⟨b0, hb0, h⟩
    rcases exceptBindOk h with ⟨bs, hbs, h⟩
    injection h with h
    subst h
    rcases List.mem_cons.mp hb with rfl | hb2
    · exact ⟨a, List.mem_cons_self a l, hb0⟩
    · rcases ih hbs b hb2 with ⟨a2, ha2, hfa2⟩
      exact ⟨a2, List.mem_cons_of_mem a ha2, hfa2⟩

theorem normalizeTable_shape {types : Dict String} {t : BOLTSTableDecl}
    {tn : BOLTSTable} (h : normalizeTable types t = .ok tn) :
    tn.index = t.index ∧ tn.columns = t.columns := by
  unfold normalizeTable at h
  rcases exceptBindOk h with ⟨ct, hct, h⟩
  rcases exceptBindOk h with ⟨dt, hdt, h⟩
  injection h with h
  subst h
  exact ⟨rfl, rfl⟩

theorem buildTable_shape {types : Dict String} {t : BOLTSTableDecl}
    {tn : BOLTSTable} (h : buildTable types t = .ok tn) :
    tn.index = t.index ∧ tn.columns = t.columns := by
  unfold buildTable at h
  rcases exceptBindOk h with ⟨tn0, htn0, h⟩
  split at h
  · split at h
    · simp at h
    · injection h with h
      subst h
      exact normalizeTable_shape htn0
  · simp at h

theorem normalizeTable2D_shape {types : Dict String} {t : BOLTSTable2DDecl}
    {tn : BOLTSTable2D} (h : normalizeTable2D types t = .ok tn) :
    tn.rowindex = t.rowindex ∧ tn.colindex = t.colindex ∧ tn.result = t.result := by
  unfold normalizeTable2D at h
  split at h
  · simp at h
  · rcases exceptBindOk h with ⟨dt, hdt, h⟩
    injection h with h
    subst h
    exact ⟨rfl, rfl, rfl⟩

theorem buildTable2D_shape {types : Dict String} {t : BOLTSTable2DDecl}
    {tn : BOLTSTable2D} (h : buildTable2D types t = .ok tn) :
    tn.rowindex = t.rowindex ∧ tn.colindex = t.colindex ∧ tn.result = t.result := by
  unfold buildTable2D at h
  rcases exceptBindOk h with ⟨tn0, htn0, h⟩
  split at h
  · simp at h
  · split at h
    · simp at h
    · split at h
      · simp at h
      · split at h
        · simp at h
        · injection h with h
          subst h
          exact normalizeTable2D_shape htn0

/-- Every name `collect` can merge values under — literal keys, table
indices and columns, 2D row/col indices and results — is a declared
parameter of a constructed instance. -/
theorem mk_closed {d : ParamDecl} {P : BOLTSParameters}
    (h : mkBOLTSParameters d = .ok P) :
    (∀ kv ∈ P.literal, kv.1 ∈ P.parameters)
    ∧ (∀ t ∈ P.tables, t.index ∈ P.parameters ∧ ∀ c ∈ t.columns, c ∈ P.parameters)
    ∧ (∀ t ∈ P.tables2d, t.rowindex ∈ P.parameters ∧ t.colindex ∈ P.parameters
        ∧ t.result ∈ P.parameters) := by
  obtain ⟨-, -, -, -, ⟨t2d, ht2d, hpar, -, -, htabs, htabs2⟩, -, -, -⟩ := mk_inversion h
  rw [hpar]
  unfold computeParameters
  refine ⟨?_, ?_, ?_⟩
  · intro kv hkv
    rw [List.mem_dedup]
    refine List.mem_append.mpr (Or.inl (List.mem_append.mpr (Or.inl ?_)))
    refine List.mem_append.mpr (Or.inl ?_)
    exact List.mem_map.mpr ⟨kv, hkv, rfl⟩
  · intro t ht
    rcases mapM_except_forall htabs t ht with ⟨tdecl, htdecl, hbuild⟩
    rcases buildTable_shape hbuild with ⟨hidx, hcols⟩
    constructor
    · rw [List.mem_dedup]
      refine List.mem_append.mpr (Or.inl (List.mem_append.mpr (Or.inr ?_)))
      refine List.mem_flatMap.mpr ⟨tdecl, htdecl, ?_⟩
      rw [hidx]
      exact List.mem_cons_self _ _
    · intro c hc
      rw [List.mem_dedup]
      refine List.mem_append.mpr (Or.inl (List.mem_append.mpr (Or.inr ?_)))
      refine List.mem_flatMap.mpr ⟨tdecl, htdecl, ?_⟩
      refine List.mem_cons_of_mem _ ?_
      rw [← hcols]
      exact hc
  · intro t ht
    rcases mapM_except_forall htabs2 t ht with ⟨tdecl, htdecl, hbuild⟩
    rcases buildTable2D_shape hbuild with ⟨hrow, hcol, hres⟩
    refine ⟨?_, ?_, ?_⟩
    · rw [List.mem_dedup]
      refine List.mem_append.mpr (Or.inr ?_)
      refine List.mem_flatMap.mpr ⟨tdecl, htdecl, ?_⟩
      rw [hrow]
      simp
    · rw [List.mem_dedup]
      refine List.mem_append.mpr (Or.inr ?_)
      refine List.mem_flatMap.mpr ⟨tdecl, htdecl, ?_⟩
      rw [hcol]
      simp
    · rw [List.mem_dedup]
      refine List.mem_append.mpr (Or.inr ?_)
      refine List.mem_flatMap.mpr ⟨tdecl, htdecl, ?_⟩
      rw [hres]
      simp

theorem get_values_keys {t : BOLTSTable} {v : Value} {row : Dict Value}
    (h : t.get_values v = .ok row) : ∀ j ∈ Dict.keys row, j ∈ t.columns := by
  cases v with
  | str s =>
    have h2 : (match Dict.find? t.data s with
        | Option.some cells => Except.ok (Dict.update ([] : Dict Value) (t.columns.zip cells))
        | Option.none => Except.error (BErr.keyError s)) = Except.ok row := h
    cases hfd : Dict.find? t.data s with
    | none => rw [hfd] at h2; simp at h2
    | some cells =>
      rw [hfd] at h2
      injection h2 with h2
      subst h2
      intro j hj
      rcases Dict.mem_keys_update hj with h0 | hz
      · simp [Dict.keys] at h0
      · simp only [Dict.keys, List.mem_map] at hz
        rcases hz with ⟨kv, hkv, rfl⟩
        exact (List.of_mem_zip hkv).1
  | none => simp [BOLTSTable.get_values] at h
  | num d0 => simp [BOLTSTable.get_values] at h
  | bool b => simp [BOLTSTable.get_values] at h

theorem get_value_keys {t : BOLTSTable2D} {rv cv : Value} {one : Dict Value}
    (h : t.get_value rv cv = .ok one) : Dict.keys one = [t.result] := by
  cases rv with
  | str r =>
    have h2 : (match Dict.find? t.data r with
        | Option.some cells =>
          match t.columns.findIdx? (fun c => cv.eqv (.str c)) with
          | Option.some i =>
            match cells.get? i with
            | Option.some w => Except.ok ([(t.result, w)] : Dict Value)
            | Option.none => Except.error (BErr.keyError "row too short")
          | Option.none => Except.error (BErr.valueError "col is not in columns")
        | Option.none => Except.error (BErr.keyError r)) = Except.ok one := h
    split at h2
    · split at h2
      · split at h2
        · injection h2 with h2; subst h2; rfl
        · exact absurd h2 (by simp)
      · exact absurd h2 (by simp)
    · exact absurd h2 (by simp)
  | none => simp [BOLTSTable2D.get_value] at h
  | num d0 => simp [BOLTSTable2D.get_value] at h
  | bool b => simp [BOLTSTable2D.get_value] at h

theorem collectStepT_eq_none {r : Dict Value} {t : BOLTSTable}
    (hv : Dict.find? r t.index = Option.none) :
    collectStepT r t = .error (.keyError t.index) := by
  unfold collectStepT
  rw [hv]

theorem collectStepT_eq_some {r : Dict Value} {t : BOLTSTable} {v : Value}
    (hv : Dict.find? r t.index = Option.some v) :
    collectStepT r t
      = (t.get_values v >>= fun row => Except.ok (Dict.update r row)) := by
  unfold collectStepT
  rw [hv]

theorem collectStepT2_eq_rownone {r : Dict Value} {t : BOLTSTable2D}
    (hrv : Dict.find? r t.rowindex = Option.none) :
    collectStepT2 r t = .error (.keyError t.rowindex) := by
  unfold collectStepT2
  rw [hrv]
  cases hcv : Dict.find? r t.colindex <;> rfl

theorem collectStepT2_eq_colnone {r : Dict Value} {t : BOLTSTable2D} {rv : Value}
    (hrv : Dict.find? r t.rowindex = Option.some rv)
    (hcv : Dict.find? r t.colindex = Option.none) :
    collectStepT2 r t = .error (.keyError t.colindex) := by
  unfold collectStepT2
  rw [hrv, hcv]

theorem collectStepT2_eq_some {r : Dict Value} {t : BOLTSTable2D} {rv cv : Value}
    (hrv : Dict.find? r t.rowindex = Option.some rv)
    (hcv : Dict.find? r t.colindex = Option.some cv) :
    collectStepT2 r t
      = (t.get_value rv cv >>= fun one => Except.ok (Dict.update r one)) := by
  unfold collectStepT2
  rw [hrv, hcv]

theorem Dict.not_mem_keys_eraseKey {α : Type} (d : Dict α) (k : String) :
    k ∉ Dict.keys (d.eraseKey k) := by
  simp only [Dict.keys, Dict.eraseKey, List.mem_map, not_exists, not_and]
  intro kv hkv heq
  have hf := List.of_mem_filter hkv
  simp [heq] at hf

theorem list_find?_congr {alpha : Type} {p q : alpha → Bool} :
    ∀ {l : List alpha}, (∀ x ∈ l, p x = q x) → l.find? p = l.find? q := by
  intro l
  induction l with
  | nil => intro h; rfl
  | cons a l ih =>
    intro h
    have ha := h a (List.mem_cons_self a l)
    rw [List.find?_cons, List.find?_cons, ha]
    cases hqa : q a
    · exact ih (fun x hx => h x (List.mem_cons_of_mem a hx))
    · rfl

/-- Relates one run of a `collect` stage carrying an extra binding `k ↦ v`
with the run without it: both fail with the same error, or both succeed
with results that agree away from `k`, the first still carrying `k ↦ v`
and the second still having no binding for `k`. -/
def FrameRel (k : String) (v : Value) (a b : Except BErr (Dict Value)) : Prop :=
  (∃ e, a = .error e ∧ b = .error e)
  ∨ (∃ s1 s2, a = .ok s1 ∧ b = .ok s2 ∧ Dict.eqOff k s1 s2
      ∧ Dict.find? s1 k = Option.some v ∧ Dict.find? s2 k = Option.none)

theorem collectStepT_frame {k : String} {v : Value} {r1 r2 : Dict Value}
    {t : BOLTSTable} (hik : t.index ≠ k) (hck : k ∉ t.columns)
    (heq : Dict.eqOff k r1 r2) (hv1 : Dict.find? r1 k = Option.some v)
    (hv2 : Dict.find? r2 k = Option.none) :
    FrameRel k v (collectStepT r1 t) (collectStepT r2 t) := by
  have hidx : Dict.find? r1 t.index = Dict.find? r2 t.index := heq t.index hik
  cases hfi : Dict.find? r2 t.index with
  | none =>
    rw [collectStepT_eq_none (hidx.trans hfi), collectStepT_eq_none hfi]
    exact Or.inl ⟨_, rfl, rfl⟩
  | some w =>
    rw [collectStepT_eq_some (hidx.trans hfi), collectStepT_eq_some hfi]
    cases hgv : t.get_values w with
    | error e => exact Or.inl ⟨e, rfl, rfl⟩
    | ok row =>
      have hnk : k ∉ Dict.keys row := fun hmem => hck (get_values_keys hgv k hmem)
      refine Or.inr ⟨Dict.update r1 row, Dict.update r2 row,
        rfl, rfl, Dict.eqOff_update heq row, ?_, ?_⟩
      · rw [Dict.find?_update_of_not_mem _ _ hnk, hv1]
      · rw [Dict.find?_update_of_not_mem _ _ hnk, hv2]

theorem collectStepT2_frame {k : String} {v : Value} {r1 r2 : Dict Value}
    {t : BOLTSTable2D} (hrk : t.rowindex ≠ k) (hcolk : t.colindex ≠ k)
    (hresk : t.result ≠ k)
    (heq : Dict.eqOff k r1 r2) (hv1 : Dict.find? r1 k = Option.some v)
    (hv2 : Dict.find? r2 k = Option.none) :
    FrameRel k v (collectStepT2 r1 t) (collectStepT2 r2 t) := by
  have hrow : Dict.find? r1 t.rowindex = Dict.find? r2 t.rowindex := heq _ hrk
  have hcol : Dict.find? r1 t.colindex = Dict.find? r2 t.colindex := heq _ hcolk
  cases hfr : Dict.find? r2 t.rowindex with
  | none =>
    rw [collectStepT2_eq_rownone (hrow.trans hfr), collectStepT2_eq_rownone hfr]
    exact Or.inl ⟨_, rfl, rfl⟩
  | some rv =>
    cases hfc : Dict.find? r2 t.colindex with
    | none =>
      rw [collectStepT2_eq_colnone (hrow.trans hfr) (hcol.trans hfc),
        collectStepT2_eq_colnone hfr hfc]
      exact Or.inl ⟨_, rfl, rfl⟩
    | some cv =>
      rw [collectStepT2_eq_some (hrow.trans hfr) (hcol.trans hfc),
        collectStepT2_eq_some hfr hfc]
      cases hgv : t.get_value rv cv with
      | error e => exact Or.inl ⟨e, rfl, rfl⟩
      | ok one =>
        have hnk : k ∉ Dict.keys one := by
          rw [get_value_keys hgv]
          intro hmem
          exact hresk (List.mem_singleton.mp hmem).symm
        refine Or.inr ⟨Dict.update r1 one, Dict.update r2 one,
          rfl, rfl, Dict.eqOff_update heq one, ?_, ?_⟩
        · rw [Dict.find?_update_of_not_mem _ _ hnk, hv1]
        · rw [Dict.find?_update_of_not_mem _ _ hnk, hv2]

theorem foldT_frame {k : String} {v : Value} :
    ∀ {ts : List BOLTSTable} {r1 r2 : Dict Value},
      (∀ t ∈ ts, t.index ≠ k ∧ k ∉ t.columns) →
      Dict.eqOff k r1 r2 → Dict.find? r1 k = Option.some v →
      Dict.find? r2 k = Option.none →
      FrameRel k v (ts.foldlM collectStepT r1) (ts.foldlM collectStepT r2) := by
  intro ts
  induction ts with
  | nil =>
    intro r1 r2 hts heq hv1 hv2
    exact Or.inr ⟨r1, r2, rfl, rfl, heq, hv1, hv2⟩
  | cons t ts ih =>
    intro r1 r2 hts heq hv1 hv2
    have hstep := collectStepT_frame (hts t (List.mem_cons_self t ts)).1
      (hts t (List.mem_cons_self t ts)).2 heq hv1 hv2
    rw [List.foldlM_cons, List.foldlM_cons]
    rcases hstep with ⟨e, he1, he2⟩ | ⟨s1, s2, hs1, hs2, heq2, hw1, hw2⟩
    · rw [he1, he2]
      exact Or.inl ⟨e, rfl, rfl⟩
    · rw [hs1, hs2]
      exact ih (fun t2 ht2 => hts t2 (List.mem_cons_of_mem t ht2)) heq2 hw1 hw2

theorem foldT2_frame {k : String} {v : Value} :
    ∀ {ts : List BOLTSTable2D} {r1 r2 : Dict Value},
      (∀ t ∈ ts, t.rowindex ≠ k ∧ t.colindex ≠ k ∧ t.result ≠ k) →
      Dict.eqOff k r1 r2 → Dict.find? r1 k = Option.some v →
      Dict.find? r2 k = Option.none →
      FrameRel k v (ts.foldlM collectStepT2 r1) (ts.foldlM collectStepT2 r2) := by
  intro ts
  induction ts with
  | nil =>
    intro r1 r2 hts heq hv1 hv2
    exact Or.inr ⟨r1, r2, rfl, rfl, heq, hv1, hv2⟩
  | cons t ts ih =>
    intro r1 r2 hts heq hv1 hv2
    have hstep := collectStepT2_frame (hts t (List.mem_cons_self t ts)).1
      (hts t (List.mem_cons_self t ts)).2.1 (hts t (List.mem_cons_self t ts)).2.2
      heq hv1 hv2
    rw [List.foldlM_cons, List.foldlM_cons]
    rcases hstep with ⟨e, he1, he2⟩ | ⟨s1, s2, hs1, hs2, heq2, hw1, hw2⟩
    · rw [he1, he2]
      exact Or.inl ⟨e, rfl, rfl⟩
    · rw [hs1, hs2]
      exact ih (fun t2 ht2 => hts t2 (List.mem_cons_of_mem t ht2)) heq2 hw1 hw2

theorem collectMerge_eq (P : BOLTSParameters) (fr : Dict Value) :
    collectMerge P fr
      = (P.tables.foldlM collectStepT
          (Dict.update (Dict.update ([] : Dict Value) P.literal) fr)
        >>= fun r => P.tables2d.foldlM collectStepT2 r) := rfl

theorem collectMerge_frame {d : ParamDecl} {P : BOLTSParameters} {k : String}
    {v : Value} {fr : Dict Value}
    (hP : mkBOLTSParameters d = .ok P) (hk : k ∉ P.parameters)
    (hfr : Dict.find? fr k = Option.some v) (hnd : (Dict.keys fr).Nodup) :
    FrameRel k v (collectMerge P fr) (collectMerge P (fr.eraseKey k)) := by
  obtain ⟨hlit, htabs, htabs2⟩ := mk_closed hP
  have hlitk : k ∉ Dict.keys P.literal := by
    intro hmem
    simp only [Dict.keys, List.mem_map] at hmem
    rcases hmem with ⟨kv, hkv, hkveq⟩
    exact hk (hkveq ▸ hlit kv hkv)
  have hbk : Dict.find? (Dict.update ([] : Dict Value) P.literal) k
      = Option.none := by
    rw [Dict.find?_update_of_not_mem _ _ hlitk]
    rfl
  have h1 : Dict.find?
      (Dict.update (Dict.update ([] : Dict Value) P.literal) fr) k
      = Option.some v := by
    rw [Dict.find?_update _ _ hnd, hfr]
  have h2 : Dict.find?
      (Dict.update (Dict.update ([] : Dict Value) P.literal) (fr.eraseKey k)) k
      = Option.none := by
    rw [Dict.find?_update_of_not_mem _ _ (Dict.not_mem_keys_eraseKey fr k), hbk]
  have heq0 : Dict.eqOff k
      (Dict.update (Dict.update ([] : Dict Value) P.literal) fr)
      (Dict.update (Dict.update ([] : Dict Value) P.literal) (fr.eraseKey k)) :=
    Dict.eqOff_update_eraseKey fr (fun j hj => rfl)
  have hts1 : ∀ t ∈ P.tables, t.index ≠ k ∧ k ∉ t.columns := by
    intro t ht
    constructor
    · intro hc
      exact hk (hc ▸ (htabs t ht).1)
    · intro hc
      exact hk ((htabs t ht).2 k hc)
  have hts2 : ∀ t ∈ P.tables2d,
      t.rowindex ≠ k ∧ t.colindex ≠ k ∧ t.result ≠ k := by
    intro t ht
    refine ⟨?_, ?_, ?_⟩
    · intro hc
      exact hk (hc ▸ (htabs2 t ht).1)
    · intro hc
      exact hk (hc ▸ (htabs2 t ht).2.1)
    · intro hc
      exact hk (hc ▸ (htabs2 t ht).2.2)
  have hfold1 := foldT_frame hts1 heq0 h1 h2
  rw [collectMerge_eq, collectMerge_eq]
  rcases hfold1 with ⟨e, he1, he2⟩ | ⟨s1, s2, hs1, hs2, heqs, hw1, hw2⟩
  · rw [he1, he2]
    exact Or.inl ⟨e, rfl, rfl⟩
  · rw [hs1, hs2]
    exact foldT2_frame hts2 heqs hw1 hw2

theorem collect_eq (P : BOLTSParameters) (fr : Dict Value) :
    collect P fr
      = (collectMerge P fr >>= fun res =>
          match P.parameters.find? (fun p => (Dict.find? res p).isNone) with
          | Option.some p => Except.error (BErr.notCollected p)
          | Option.none => Except.ok res) := rfl

/-- C10: `collect` performs no validation that the supplied free-values
mapping mentions only declared parameters: for a constructed instance and
a supplied mapping binding an undeclared key `k` to a value `v`, every
successful `collect` result still binds `k` to `v`, and `collect` fails
with an error `e` exactly when it fails with the same `e` after the extra
binding is removed — the extra key never by itself causes an error. -/
theorem c10_collect_extra_key {d : ParamDecl} {P : BOLTSParameters} {k : String}
    {v : Value} {fr : Dict Value}
    (hP : mkBOLTSParameters d = .ok P) (hk : k ∉ P.parameters)
    (hfr : Dict.find? fr k = Option.some v) (hnd : (Dict.keys fr).Nodup) :
    (∀ res, collect P fr = .ok res → Dict.find? res k = Option.some v)
    ∧ (∀ e, collect P fr = .error e ↔ collect P (fr.eraseKey k) = .error e) := by
  have hmf := collectMerge_frame hP hk hfr hnd
  rcases hmf with ⟨e, he1, he2⟩ | ⟨s1, s2, hs1, hs2, heqs, hw1, hw2⟩
  · constructor
    · intro res hres
      rw [collect_eq, he1] at hres
      exact Except.noConfusion hres
    · intro e2
      rw [collect_eq, he1, collect_eq, he2]
  · have hfind : P.parameters.find? (fun p => (Dict.find? s1 p).isNone)
        = P.parameters.find? (fun p => (Dict.find? s2 p).isNone) := by
      apply list_find?_congr
      intro p hp
      have hpk : p ≠ k := fun hc => hk (hc ▸ hp)
      rw [heqs p hpk]
    constructor
    · intro res hres
      rw [collect_eq, hs1] at hres
      have hres2 : (match P.parameters.find? (fun p => (Dict.find? s1 p).isNone) with
          | Option.some p => Except.error (BErr.notCollected p)
          | Option.none => Except.ok s1) = Except.ok res := hres
      cases hf : P.parameters.find? (fun p => (Dict.find? s1 p).isNone) with
      | some p =>
        rw [hf] at hres2
        exact Except.noConfusion hres2
      | none =>
        rw [hf] at hres2
        injection hres2 with hres2
        subst hres2
        exact hw1
    · intro e2
      rw [collect_eq, hs1, collect_eq, hs2]
      show (match P.parameters.find? (fun p => (Dict.find? s1 p).isNone) with
          | Option.some p => Except.error (BErr.notCollected p)
          | Option.none => Except.ok s1) = Except.error e2
        ↔ (match P.parameters.find? (fun p => (Dict.find? s2 p).isNone) with
          | Option.some p => Except.error (BErr.notCollected p)
          | Option.none => Except.ok s2) = Except.error e2
      rw [← hfind]
      cases hf : P.parameters.find? (fun p => (Dict.find? s1 p).isNone) with
      | some p => exact Iff.rfl
      | none => exact ⟨fun h0 => Except.noConfusion h0, fun h0 => Except.noConfusion h0⟩

theorem c10_collect_extra_key_witness :
    Dict.find? [("zz", Value.num ⟨9, 0⟩), ("k2", Value.num ⟨5, 0⟩),
        ("k", Value.num ⟨1, 0⟩)] "zz" = Option.some (Value.num ⟨9, 0⟩)
    ∧ (collect exC1P [("k2", Value.num ⟨5, 0⟩), ("zz", Value.num ⟨9, 0⟩)]
          = .error (BErr.notCollected "q")
        ↔ collect exC1P
            (Dict.eraseKey [("k2", Value.num ⟨5, 0⟩), ("zz", Value.num ⟨9, 0⟩)] "zz")
          = .error (BErr.notCollected "q")) :=
  ⟨(@c10_collect_extra_key exC1decl exC1P "zz" (Value.num ⟨9, 0⟩)
      [("k2", Value.num ⟨5, 0⟩), ("zz", Value.num ⟨9, 0⟩)]
      rfl (by decide) rfl (by decide)).1
      [("zz", Value.num ⟨9, 0⟩), ("k2", Value.num ⟨5, 0⟩), ("k", Value.num ⟨1, 0⟩)]
      (by decide),
    (@c10_collect_extra_key exC1decl exC1P "zz" (Value.num ⟨9, 0⟩)
      [("k2", Value.num ⟨5, 0⟩), ("zz", Value.num ⟨9, 0⟩)]
      rfl (by decide) rfl (by decide)).2 (BErr.notCollected "q")⟩

theorem Dict.find?_cons_self {β : Type} (kv : String × β) (d : Dict β) :
    Dict.find? (kv :: d) kv.1 = Option.some kv.2 := by
  simp [Dict.find?, List.find?]

theorem Dict.find?_cons_ne {β : Type} (kv : String × β) (d : Dict β) {p : String}
    (h : p ≠ kv.1) : Dict.find? (kv :: d) p = Dict.find? d p := by
  have hb : (kv.1 == p) = false := by simp [Ne.symm h]
  simp [Dict.find?, List.find?, hb]

theorem Dict.mem_keys_of_find? {β : Type} {d : Dict β} {p : String} {v : β}
    (h : Dict.find? d p = Option.some v) : p ∈ Dict.keys d := by
  by_contra hn
  rw [(Dict.find?_eq_none d p).mpr hn] at h
  exact Option.noConfusion h

theorem Value.eqv_refl (v : Value) : v.eqv v = true := by
  cases v with
  | none => rfl
  | num a => simp [Value.eqv, Dec.beqv]
  | bool b => simp [Value.eqv]
  | str s => simp [Value.eqv]

/-- Bindings looked up in equal dicts agree — the degenerate way the
counterexample operands avoid every `union` conflict. -/
theorem no_conflict_of_eq {β : Type} {d1 d2 : Dict β} (h : d1 = d2) :
    ∀ p v1 v2, Dict.find? d1 p = Option.some v1 →
      Dict.find? d2 p = Option.some v2 → v1 = v2 := by
  subst h
  intro p v1 v2 h1 h2
  rw [h1] at h2
  injection h2

theorem eqv_no_conflict_of_eq {d1 d2 : Dict Value} (h : d1 = d2) :
    ∀ p v1 v2, Dict.find? d1 p = Option.some v1 →
      Dict.find? d2 p = Option.some v2 → v1.eqv v2 = true := by
  subst h
  intro p v1 v2 h1 h2
  rw [h1] at h2
  injection h2 with h2
  subst h2
  exact Value.eqv_refl v1

theorem mergeStep_eq_notin {β : Type} (bad : β → β → Bool)
    (mkE : String → β → β → BErr) (selfT acc : Dict β) (kv : String × β)
    (hs : (Dict.find? acc kv.1).isSome = false) :
    mergeStep bad mkE selfT acc kv = Except.ok (Dict.insert acc kv.1 kv.2) := by
  unfold mergeStep
  rw [if_neg (by simp [hs])]

theorem mergeStep_eq_in {β : Type} (bad : β → β → Bool)
    (mkE : String → β → β → BErr) (selfT acc : Dict β) (kv : String × β)
    {t0 : β} (hs : (Dict.find? acc kv.1).isSome = true)
    (ht0 : Dict.find? selfT kv.1 = Option.some t0) :
    mergeStep bad mkE selfT acc kv
      = if bad t0 kv.2 then Except.error (mkE kv.1 t0 kv.2)
        else Except.ok (Dict.insert acc kv.1 kv.2) := by
  unfold mergeStep
  rw [if_pos hs, ht0]

/-- A `union` merge iteration either raises on a genuine conflict against
`self` or inserts the entry of `other`; the accumulator holds a parameter
exactly when `self` does (the loop invariant). -/
theorem mergeStep_cases {β : Type} (bad : β → β → Bool)
    (mkE : String → β → β → BErr) (selfT acc : Dict β) (kv : String × β)
    (hinv : (Dict.find? acc kv.1).isSome = (Dict.find? selfT kv.1).isSome) :
    (∃ t0, Dict.find? selfT kv.1 = Option.some t0 ∧ bad t0 kv.2 = true
      ∧ mergeStep bad mkE selfT acc kv = Except.error (mkE kv.1 t0 kv.2))
    ∨ (mergeStep bad mkE selfT acc kv = Except.ok (Dict.insert acc kv.1 kv.2)
        ∧ ∀ t0, Dict.find? selfT kv.1 = Option.some t0 → bad t0 kv.2 = false) := by
  cases hs : (Dict.find? acc kv.1).isSome with
  | false =>
    refine Or.inr ⟨mergeStep_eq_notin bad mkE selfT acc kv hs, ?_⟩
    intro t0 ht0
    rw [hs, ht0] at hinv
    exact absurd hinv.symm (by simp)
  | true =>
    have hsome : (Dict.find? selfT kv.1).isSome = true := by rw [← hinv]; exact hs
    rcases Option.isSome_iff_exists.mp hsome with ⟨t0, ht0⟩
    rw [mergeStep_eq_in bad mkE selfT acc kv hs ht0]
    by_cases hbt : bad t0 kv.2 = true
    · exact Or.inl ⟨t0, ht0, hbt, by rw [if_pos hbt]⟩
    · refine Or.inr ⟨by rw [if_neg hbt], ?_⟩
      intro t1 ht1
      rw [ht0] at ht1
      injection ht1 with ht1
      subst ht1
      exact Bool.not_eq_true _ ▸ hbt

theorem mergeInv_step {β : Type} {selfT acc : Dict β} {kv : String × β}
    {rest : Dict β}
    (hinv : ∀ j, j ∈ Dict.keys (kv :: rest) →
      (Dict.find? acc j).isSome = (Dict.find? selfT j).isSome)
    (hnotin : kv.1 ∉ Dict.keys rest) :
    ∀ j, j ∈ Dict.keys rest →
      (Dict.find? (Dict.insert acc kv.1 kv.2) j).isSome
        = (Dict.find? selfT j).isSome := by
  intro j hj
  have hjk : j ≠ kv.1 := fun hc => hnotin (hc ▸ hj)
  rw [Dict.find?_insert_of_ne _ _ hjk]
  exact hinv j (by simp only [Dict.keys, List.map_cons, List.mem_cons]; exact Or.inr hj)

/-- When no parameter shared by `self` and `other` has disagreeing values,
a `union` merge loop completes without raising. -/
theorem mergeFold_ok {β : Type} (bad : β → β → Bool)
    (mkE : String → β → β → BErr) (selfT : Dict β) :
    ∀ (otherT : Dict β) (acc : Dict β),
      (Dict.keys otherT).Nodup →
      (∀ j, j ∈ Dict.keys otherT →
        (Dict.find? acc j).isSome = (Dict.find? selfT j).isSome) →
      (∀ p v1 v2, Dict.find? selfT p = Option.some v1 →
        Dict.find? otherT p = Option.some v2 → bad v1 v2 = false) →
      ∃ out, otherT.foldlM (mergeStep bad mkE selfT) acc = Except.ok out := by
  intro otherT
  induction otherT with
  | nil =>
    intro acc _ _ _
    exact ⟨acc, rfl⟩
  | cons kv rest ih =>
    intro acc hnd hinv hno
    have hnd2 : kv.1 ∉ Dict.keys rest ∧ (Dict.keys rest).Nodup := by
      simpa [Dict.keys] using hnd
    have hkmem : kv.1 ∈ Dict.keys (kv :: rest) := by
      simp [Dict.keys]
    rcases mergeStep_cases bad mkE selfT acc kv (hinv kv.1 hkmem) with
      ⟨t0, ht0, hbt, hstep⟩ | ⟨hstep, -⟩
    · exact absurd hbt (by
        rw [hno kv.1 t0 kv.2 ht0 (Dict.find?_cons_self kv rest)]
        exact Bool.false_ne_true)
    · have hno2 : ∀ p v1 v2, Dict.find? selfT p = Option.some v1 →
          Dict.find? rest p = Option.some v2 → bad v1 v2 = false := by
        intro p v1 v2 h1 h2
        have hpk : p ≠ kv.1 := fun hc => hnd2.1 (hc ▸ Dict.mem_keys_of_find? h2)
        refine hno p v1 v2 h1 ?_
        rw [Dict.find?_cons_ne kv rest hpk]
        exact h2
      rcases ih (Dict.insert acc kv.1 kv.2) hnd2.2 (mergeInv_step hinv hnd2.1) hno2
        with ⟨out, hout⟩
      refine ⟨out, ?_⟩
      rw [List.foldlM_cons, hstep]
      exact hout

/-- When some parameter shared by `self` and `other` has disagreeing
values, a `union` merge loop raises the loop error naming a disagreeing
parameter and both of its values. -/
theorem mergeFold_error {β : Type} (bad : β → β → Bool)
    (mkE : String → β → β → BErr) (selfT : Dict β) :
    ∀ (otherT : Dict β) (acc : Dict β),
      (Dict.keys otherT).Nodup →
      (∀ j, j ∈ Dict.keys otherT →
        (Dict.find? acc j).isSome = (Dict.find? selfT j).isSome) →
      (∃ p v1 v2, Dict.find? selfT p = Option.some v1
        ∧ Dict.find? otherT p = Option.some v2 ∧ bad v1 v2 = true) →
      ∃ p v1 v2, Dict.find? selfT p = Option.some v1
        ∧ Dict.find? otherT p = Option.some v2 ∧ bad v1 v2 = true
        ∧ otherT.foldlM (mergeStep bad mkE selfT) acc
            = Except.error (mkE p v1 v2) := by
  intro otherT
  induction otherT with
  | nil =>
    intro acc _ _ hconf
    rcases hconf with ⟨p, v1, v2, -, h2, -⟩
    exact absurd h2 (by simp [Dict.find?])
  | cons kv rest ih =>
    intro acc hnd hinv hconf
    have hnd2 : kv.1 ∉ Dict.keys rest ∧ (Dict.keys rest).Nodup := by
      simpa [Dict.keys] using hnd
    have hkmem : kv.1 ∈ Dict.keys (kv :: rest) := by
      simp [Dict.keys]
    rcases mergeStep_cases bad mkE selfT acc kv (hinv kv.1 hkmem) with
      ⟨t0, ht0, hbt, hstep⟩ | ⟨hstep, hnoc⟩
    · refine ⟨kv.1, t0, kv.2, ht0, Dict.find?_cons_self kv rest, hbt, ?_⟩
      rw [List.foldlM_cons, hstep]
      rfl
    · rcases hconf with ⟨p, v1, v2, h1, h2, hb⟩
      have hpk : p ≠ kv.1 := by
        intro hc
        subst hc
        rw [Dict.find?_cons_self kv rest] at h2
        injection h2 with hv2
        subst hv2
        rw [hnoc v1 h1] at hb
        exact absurd hb Bool.false_ne_true
      have h2' : Dict.find? rest p = Option.some v2 := by
        rw [← Dict.find?_cons_ne kv rest hpk]
        exact h2
      rcases ih (Dict.insert acc kv.1 kv.2) hnd2.2 (mergeInv_step hinv hnd2.1)
        ⟨p, v1, v2, h1, h2', hb⟩ with ⟨p3, v13, v23, h13, h23, hb3, hfold⟩
      have hp3k : p3 ≠ kv.1 := fun hc => hnd2.1 (hc ▸ Dict.mem_keys_of_find? h23)
      refine ⟨p3, v13, v23, h13, ?_, hb3, ?_⟩
      · rw [Dict.find?_cons_ne kv rest hp3k]
        exact h23
      · rw [List.foldlM_cons, hstep]
        exact hfold

/-- Copying a dict into the empty result (the first loop of each `union`
merge pass) binds exactly the parameters the source binds. -/
theorem update_nil_isSome {β : Type} (selfT : Dict β)
    (hnd : (Dict.keys selfT).Nodup) (j : String) :
    (Dict.find? (Dict.update ([] : Dict β) selfT) j).isSome
      = (Dict.find? selfT j).isSome := by
  rw [Dict.find?_update _ _ hnd j]
  cases hf : Dict.find? selfT j <;> rfl

/-- The first `choices` loop of `union` (`res.choices[pname] =
set(self.choices[pname])`, sets modelled by `dedup`): lookups hit the
copied bindings, other keys fall through to the initial dict. -/
theorem Dict.find?_foldl_insert_map {β : Type} (g : β → β) :
    ∀ (d : Dict β) (init : Dict β), (Dict.keys d).Nodup →
      (∀ p v, Dict.find? d p = Option.some v →
        Dict.find? (d.foldl (fun acc kv => Dict.insert acc kv.1 (g kv.2)) init) p
          = Option.some (g v))
      ∧ (∀ p, Dict.find? d p = Option.none →
        Dict.find? (d.foldl (fun acc kv => Dict.insert acc kv.1 (g kv.2)) init) p
          = Dict.find? init p) := by
  intro d
  induction d with
  | nil =>
    intro init _
    exact ⟨fun p v h => absurd h (by simp [Dict.find?]), fun p _ => rfl⟩
  | cons kv rest ih =>
    intro init hnd
    have hnd2 : kv.1 ∉ Dict.keys rest ∧ (Dict.keys rest).Nodup := by
      simpa [Dict.keys] using hnd
    refine ⟨?_, ?_⟩
    · intro p v hpv
      rw [List.foldl_cons]
      by_cases hp : p = kv.1
      · subst hp
        rw [Dict.find?_cons_self kv rest] at hpv
        injection hpv with hv
        subst hv
        have hrnone : Dict.find? rest kv.1 = Option.none :=
          (Dict.find?_eq_none rest kv.1).mpr hnd2.1
        rw [(ih _ hnd2.2).2 kv.1 hrnone, Dict.find?_insert_self]
      · have hpv' : Dict.find? rest p = Option.some v := by
          rw [← Dict.find?_cons_ne kv rest hp]
          exact hpv
        rw [(ih _ hnd2.2).1 p v hpv']
    · intro p hpn
      rw [List.foldl_cons]
      have hpk : p ≠ kv.1 := by
        intro hc
        subst hc
        rw [Dict.find?_cons_self kv rest] at hpn
        exact Option.noConfusion hpn
      have hpn' : Dict.find? rest p = Option.none := by
        rw [← Dict.find?_cons_ne kv rest hpk]
        exact hpn
      rw [(ih _ hnd2.2).2 p hpn', Dict.find?_insert_of_ne _ _ hpk]

/-- The second `choices` loop of `union`: an entry of `other` intersects
the accumulated set when present, is adopted (as a set) when absent, and
keys `other` never mentions keep their accumulated binding. -/
theorem choicesMerge_find? :
    ∀ (otherC : Dict (List String)) (acc : Dict (List String)),
      (Dict.keys otherC).Nodup →
      (∀ p b, Dict.find? otherC p = Option.some b →
        Dict.find? (otherC.foldl (fun a2 kv =>
            match Dict.find? a2 kv.1 with
            | Option.some s0 => Dict.insert a2 kv.1 (s0.filter (fun x => x ∈ kv.2))
            | Option.none => Dict.insert a2 kv.1 kv.2.dedup) acc) p
          = match Dict.find? acc p with
            | Option.some a => Option.some (a.filter (fun x => x ∈ b))
            | Option.none => Option.some b.dedup)
      ∧ (∀ p, Dict.find? otherC p = Option.none →
        Dict.find? (otherC.foldl (fun a2 kv =>
            match Dict.find? a2 kv.1 with
            | Option.some s0 => Dict.insert a2 kv.1 (s0.filter (fun x => x ∈ kv.2))
            | Option.none => Dict.insert a2 kv.1 kv.2.dedup) acc) p
          = Dict.find? acc p) := by
  intro otherC
  induction otherC with
  | nil =>
    intro acc _
    exact ⟨fun p b h => absurd h (by simp [Dict.find?]), fun p _ => rfl⟩
  | cons kv rest ih =>
    intro acc hnd
    have hnd2 : kv.1 ∉ Dict.keys rest ∧ (Dict.keys rest).Nodup := by
      simpa [Dict.keys] using hnd
    have hstep_self : Dict.find? (match Dict.find? acc kv.1 with
        | Option.some s0 => Dict.insert acc kv.1 (s0.filter (fun x => x ∈ kv.2))
        | Option.none => Dict.insert acc kv.1 kv.2.dedup) kv.1
        = match Dict.find? acc kv.1 with
          | Option.some a => Option.some (a.filter (fun x => x ∈ kv.2))
          | Option.none => Option.some kv.2.dedup := by
      cases hA : Dict.find? acc kv.1 with
      | none =>
        show Dict.find? (Dict.insert acc kv.1 kv.2.dedup) kv.1
          = Option.some kv.2.dedup
        rw [Dict.find?_insert_self]
      | some a =>
        show Dict.find? (Dict.insert acc kv.1 (a.filter (fun x => x ∈ kv.2))) kv.1
          = Option.some (a.filter (fun x => x ∈ kv.2))
        rw [Dict.find?_insert_self]
    have hstep_ne : ∀ j, j ≠ kv.1 → Dict.find? (match Dict.find? acc kv.1 with
        | Option.some s0 => Dict.insert acc kv.1 (s0.filter (fun x => x ∈ kv.2))
        | Option.none => Dict.insert acc kv.1 kv.2.dedup) j = Dict.find? acc j := by
      intro j hj
      cases hA : Dict.find? acc kv.1 with
      | none =>
        show Dict.find? (Dict.insert acc kv.1 kv.2.dedup) j = Dict.find? acc j
        rw [Dict.find?_insert_of_ne _ _ hj]
      | some a =>
        show Dict.find? (Dict.insert acc kv.1 (a.filter (fun x => x ∈ kv.2))) j
          = Dict.find? acc j
        rw [Dict.find?_insert_of_ne _ _ hj]
    refine ⟨?_, ?_⟩
    · intro p b hpb
      rw [List.foldl_cons]
      by_cases hp : p = kv.1
      · subst hp
        rw [Dict.find?_cons_self kv rest] at hpb
        injection hpb with hb
        subst hb
        have hrnone : Dict.find? rest kv.1 = Option.none :=
          (Dict.find?_eq_none rest kv.1).mpr hnd2.1
        rw [(ih _ hnd2.2).2 kv.1 hrnone, hstep_self]
      · have hpb' : Dict.find? rest p = Option.some b := by
          rw [← Dict.find?_cons_ne kv rest hp]
          exact hpb
        rw [(ih _ hnd2.2).1 p b hpb', hstep_ne p hp]
    · intro p hpn
      rw [List.foldl_cons]
      have hpk : p ≠ kv.1 := by
        intro hc
        subst hc
        rw [Dict.find?_cons_self kv rest] at hpn
        exact Option.noConfusion hpn
      have hpn' : Dict.find? rest p = Option.none := by
        rw [← Dict.find?_cons_ne kv rest hpk]
        exact hpn
      rw [(ih _ hnd2.2).2 p hpn', hstep_ne p hpk]

/-- The `choices` pass of `union` is the per-parameter set intersection
(adopting the set of the operand that has one when the other does not)
followed by the re-sorting pass. -/
theorem unionChoices_spec (selfC otherC : Dict (List String))
    (hs : (Dict.keys selfC).Nodup) (ho : (Dict.keys otherC).Nodup) :
    ∃ merged, unionChoices selfC otherC = sortAllChoices merged
      ∧ ∀ p, Dict.find? merged p
          = match Dict.find? selfC p, Dict.find? otherC p with
            | Option.some a, Option.some b =>
              Option.some (a.dedup.filter (fun x => x ∈ b))
            | Option.some a, Option.none => Option.some a.dedup
            | Option.none, Option.some b => Option.some b.dedup
            | Option.none, Option.none => Option.none := by
  refine ⟨otherC.foldl (fun (a2 : Dict (List String)) (kv : String × List String) =>
      match Dict.find? a2 kv.1 with
      | Option.some s0 => Dict.insert a2 kv.1 (s0.filter (fun x => x ∈ kv.2))
      | Option.none => Dict.insert a2 kv.1 kv.2.dedup)
      (selfC.foldl (fun (acc : Dict (List String)) (kv : String × List String) =>
        Dict.insert acc kv.1 kv.2.dedup)
        ([] : Dict (List String))), rfl, ?_⟩
  intro p
  have hcopy := Dict.find?_foldl_insert_map (fun l : List String => l.dedup)
    selfC ([] : Dict (List String)) hs
  have hmerge := choicesMerge_find? otherC
    (selfC.foldl (fun acc kv => Dict.insert acc kv.1 kv.2.dedup)
      ([] : Dict (List String))) ho
  cases h1 : Dict.find? selfC p with
  | some a =>
    have hfirst := hcopy.1 p a h1
    cases h2 : Dict.find? otherC p with
    | some b =>
      have hm := hmerge.1 p b h2
      rw [hfirst] at hm
      exact hm
    | none =>
      have hm := hmerge.2 p h2
      rw [hfirst] at hm
      exact hm
  | none =>
    have hfirst := hcopy.2 p h1
    cases h2 : Dict.find? otherC p with
    | some b =>
      have hm := hmerge.1 p b h2
      rw [hfirst] at hm
      exact hm
    | none =>
      have hm := hmerge.2 p h2
      rw [hfirst] at hm
      exact hm

/-- The result object of `union` once the four merge passes have produced
`t`, `dfl`, `dsc` and `ch`: literal merged with `other` overriding, free
and table lists concatenated, parameters unioned, `common` as built from
the empty declaration. -/
def unionShape (s o : BOLTSParameters) (t : Dict String) (dfl : Dict Value)
    (dsc : Dict String) (ch : Dict (List String)) : BOLTSParameters :=
  ⟨t, Dict.update (Dict.update ([] : Dict Value) s.literal) o.literal,
    s.free ++ o.free, s.tables ++ o.tables, s.tables2d ++ o.tables2d,
    dsc, (s.parameters ++ o.parameters).dedup, ch, dfl, Option.some [[]]⟩

/-- `union_imp` unfolded: the four merge passes in order, then the result
object with the merged fields. -/
theorem union_imp_eq (s o : BOLTSParameters) :
    union_imp s o = (do
      let t ← unionTypes s.types o.types
      let dfl ← unionDefaults s.defaults o.defaults
      let dsc ← unionDescription s.description o.description
      let ch ← unionChoices s.choices o.choices
      Except.ok (⟨s, o, unionShape s o t dfl dsc ch⟩ : UnionState)) := rfl

theorem union_err_of_types {s o : BOLTSParameters} {e : BErr}
    (h : unionTypes s.types o.types = Except.error e) :
    union s o = Except.error e := by
  unfold union
  rw [union_imp_eq, h]
  rfl

theorem union_err_of_defaults {s o : BOLTSParameters} {t : Dict String}
    {e : BErr} (ht : unionTypes s.types o.types = Except.ok t)
    (h : unionDefaults s.defaults o.defaults = Except.error e) :
    union s o = Except.error e := by
  unfold union
  rw [union_imp_eq, ht, h]
  rfl

theorem union_err_of_description {s o : BOLTSParameters} {t : Dict String}
    {dfl : Dict Value} {e : BErr}
    (ht : unionTypes s.types o.types = Except.ok t)
    (hd : unionDefaults s.defaults o.defaults = Except.ok dfl)
    (h : unionDescription s.description o.description = Except.error e) :
    union s o = Except.error e := by
  unfold union
  rw [union_imp_eq, ht, hd, h]
  rfl

theorem union_ok_inv {s o r : BOLTSParameters}
    (h : union s o = Except.ok r) :
    ∃ t dfl dsc ch, unionTypes s.types o.types = Except.ok t
      ∧ unionDefaults s.defaults o.defaults = Except.ok dfl
      ∧ unionDescription s.description o.description = Except.ok dsc
      ∧ unionChoices s.choices o.choices = Except.ok ch
      ∧ r = unionShape s o t dfl dsc ch := by
  unfold union at h
  rw [union_imp_eq] at h
  cases ht : unionTypes s.types o.types with
  | error e =>
    rw [ht] at h
    have h2 : (Except.error e : Except BErr BOLTSParameters) = Except.ok r := h
    exact Except.noConfusion h2
  | ok t =>
    rw [ht] at h
    cases hd : unionDefaults s.defaults o.defaults with
    | error e =>
      rw [hd] at h
      have h2 : (Except.error e : Except BErr BOLTSParameters) = Except.ok r := h
      exact Except.noConfusion h2
    | ok dfl =>
      rw [hd] at h
      cases hds : unionDescription s.description o.description with
      | error e =>
        rw [hds] at h
        have h2 : (Except.error e : Except BErr BOLTSParameters) = Except.ok r := h
        exact Except.noConfusion h2
      | ok dsc =>
        rw [hds] at h
        cases hc : unionChoices s.choices o.choices with
        | error e =>
          rw [hc] at h
          have h2 : (Except.error e : Except BErr BOLTSParameters) = Except.ok r := h
          exact Except.noConfusion h2
        | ok ch =>
          rw [hc] at h
          have h2 : Except.ok (unionShape s o t dfl dsc ch) = Except.ok r := h
          injection h2 with h2
          exact ⟨t, dfl, dsc, ch, rfl, rfl, rfl, rfl, h2.symm⟩

/-- C6: `union` raises a conflict error naming the parameter and both
values whenever a parameter shared by the operands maps to different
values in `types` (always), in `defaults` (when `types` are
conflict-free) or in `description` (when `types` and `defaults` are
conflict-free); and every successful `union` is conflict-free and returns
the merged instance: literal maps merged with `other` overriding on key
collision, free-name and table lists concatenated, and choices merged by
per-parameter set intersection (adopting the set of the operand that has
one when the other does not) followed by re-sorting with the strategy
selection.  A successful re-sort is *not* guaranteed by the absence of
conflicts, so the success clauses are stated conditionally on `union`
returning a result. -/
theorem c6_union_conflicts (s o : BOLTSParameters)
    (hst : (Dict.keys s.types).Nodup) (hot : (Dict.keys o.types).Nodup)
    (hsd : (Dict.keys s.defaults).Nodup) (hod : (Dict.keys o.defaults).Nodup)
    (hsds : (Dict.keys s.description).Nodup)
    (hods : (Dict.keys o.description).Nodup)
    (hsc : (Dict.keys s.choices).Nodup) (hoc : (Dict.keys o.choices).Nodup) :
    ((∃ p t1 t2, Dict.find? s.types p = Option.some t1
        ∧ Dict.find? o.types p = Option.some t2 ∧ t1 ≠ t2) →
      ∃ p t1 t2, Dict.find? s.types p = Option.some t1
        ∧ Dict.find? o.types p = Option.some t2 ∧ t1 ≠ t2
        ∧ union s o = Except.error (BErr.incompatibleType p t1 t2))
    ∧ ((∀ p t1 t2, Dict.find? s.types p = Option.some t1 →
          Dict.find? o.types p = Option.some t2 → t1 = t2) →
        (∃ p d1 d2, Dict.find? s.defaults p = Option.some d1
          ∧ Dict.find? o.defaults p = Option.some d2 ∧ d1.eqv d2 = false) →
        ∃ p d1 d2, Dict.find? s.defaults p = Option.some d1
          ∧ Dict.find? o.defaults p = Option.some d2 ∧ d1.eqv d2 = false
          ∧ union s o = Except.error (BErr.incompatibleDefault p d1 d2))
    ∧ ((∀ p t1 t2, Dict.find? s.types p = Option.some t1 →
          Dict.find? o.types p = Option.some t2 → t1 = t2) →
        (∀ p d1 d2, Dict.find? s.defaults p = Option.some d1 →
          Dict.find? o.defaults p = Option.some d2 → d1.eqv d2 = true) →
        (∃ p a b, Dict.find? s.description p = Option.some a
          ∧ Dict.find? o.description p = Option.some b ∧ a ≠ b) →
        ∃ p a b, Dict.find? s.description p = Option.some a
          ∧ Dict.find? o.description p = Option.some b ∧ a ≠ b
          ∧ union s o = Except.error (BErr.incompatibleDescription p a b))
    ∧ (∀ r, union s o = Except.ok r →
        (∀ p t1 t2, Dict.find? s.types p = Option.some t1 →
          Dict.find? o.types p = Option.some t2 → t1 = t2)
        ∧ (∀ p d1 d2, Dict.find? s.defaults p = Option.some d1 →
          Dict.find? o.defaults p = Option.some d2 → d1.eqv d2 = true)
        ∧ (∀ p a b, Dict.find? s.description p = Option.some a →
          Dict.find? o.description p = Option.some b → a = b)
        ∧ r.literal = Dict.update (Dict.update ([] : Dict Value) s.literal) o.literal
        ∧ r.free = s.free ++ o.free
        ∧ r.tables = s.tables ++ o.tables
        ∧ r.tables2d = s.tables2d ++ o.tables2d
        ∧ ∃ merged, (∀ p, Dict.find? merged p
            = match Dict.find? s.choices p, Dict.find? o.choices p with
              | Option.some a, Option.some b =>
                Option.some (a.dedup.filter (fun x => x ∈ b))
              | Option.some a, Option.none => Option.some a.dedup
              | Option.none, Option.some b => Option.some b.dedup
              | Option.none, Option.none => Option.none)
          ∧ sortAllChoices merged = Except.ok r.choices) := by
  refine ⟨?_, ?_, ?_, ?_⟩
  · rintro ⟨p, t1, t2, h1, h2, hne⟩
    rcases mergeFold_error (fun a b => a != b) BErr.incompatibleType s.types
      o.types (Dict.update ([] : Dict String) s.types) hot
      (fun j _ => update_nil_isSome s.types hst j)
      ⟨p, t1, t2, h1, h2, by show (t1 != t2) = true; exact bne_iff_ne.mpr hne⟩
      with ⟨p3, v13, v23, h13, h23, hb3, hfold⟩
    exact ⟨p3, v13, v23, h13, h23, bne_iff_ne.mp hb3, union_err_of_types hfold⟩
  · intro hnoT
    rintro ⟨p, d1, d2, h1, h2, hne⟩
    rcases mergeFold_ok (fun a b => a != b) BErr.incompatibleType s.types
      o.types (Dict.update ([] : Dict String) s.types) hot
      (fun j _ => update_nil_isSome s.types hst j)
      (fun q v1 v2 hq1 hq2 => by
        show (v1 != v2) = false
        rw [hnoT q v1 v2 hq1 hq2]
        simp) with ⟨t, ht⟩
    rcases mergeFold_error (fun a b => ! a.eqv b) BErr.incompatibleDefault
      s.defaults o.defaults (Dict.update ([] : Dict Value) s.defaults) hod
      (fun j _ => update_nil_isSome s.defaults hsd j)
      ⟨p, d1, d2, h1, h2, by show (! d1.eqv d2) = true; rw [hne]; rfl⟩
      with ⟨p3, v13, v23, h13, h23, hb3, hfold⟩
    refine ⟨p3, v13, v23, h13, h23, ?_, union_err_of_defaults ht hfold⟩
    cases hE : v13.eqv v23 with
    | false => rfl
    | true =>
      have hb3' : (! v13.eqv v23) = true := hb3
      rw [hE] at hb3'
      exact absurd hb3' (by decide)
  · intro hnoT hnoD
    rintro ⟨p, a, b, h1, h2, hne⟩
    rcases mergeFold_ok (fun a b => a != b) BErr.incompatibleType s.types
      o.types (Dict.update ([] : Dict String) s.types) hot
      (fun j _ => update_nil_isSome s.types hst j)
      (fun q v1 v2 hq1 hq2 => by
        show (v1 != v2) = false
        rw [hnoT q v1 v2 hq1 hq2]
        simp) with ⟨t, ht⟩
    rcases mergeFold_ok (fun a b => ! a.eqv b) BErr.incompatibleDefault
      s.defaults o.defaults (Dict.update ([] : Dict Value) s.defaults) hod
      (fun j _ => update_nil_isSome s.defaults hsd j)
      (fun q v1 v2 hq1 hq2 => by
        show (! v1.eqv v2) = false
        rw [hnoD q v1 v2 hq1 hq2]
        rfl) with ⟨dfl, hdfl⟩
    rcases mergeFold_error (fun a b => a != b) BErr.incompatibleDescription
      s.description o.description (Dict.update ([] : Dict String) s.description)
      hods (fun j _ => update_nil_isSome s.description hsds j)
      ⟨p, a, b, h1, h2, by show (a != b) = true; exact bne_iff_ne.mpr hne⟩
      with ⟨p3, v13, v23, h13, h23, hb3, hfold⟩
    exact ⟨p3, v13, v23, h13, h23, bne_iff_ne.mp hb3,
      union_err_of_description ht hdfl hfold⟩
  · intro r hr
    rcases union_ok_inv hr with ⟨t, dfl, dsc, ch, ht, hd, hds, hc, hshape⟩
    subst hshape
    refine ⟨?_, ?_, ?_, rfl, rfl, rfl, rfl, ?_⟩
    · intro p t1 t2 h1 h2
      by_contra hne
      rcases mergeFold_error (fun a b => a != b) BErr.incompatibleType s.types
        o.types (Dict.update ([] : Dict String) s.types) hot
        (fun j _ => update_nil_isSome s.types hst j)
        ⟨p, t1, t2, h1, h2, by show (t1 != t2) = true; exact bne_iff_ne.mpr hne⟩
        with ⟨p3, v13, v23, -, -, -, hfold⟩
      have hcontra : Except.ok t
          = Except.error (BErr.incompatibleType p3 v13 v23) := by
        rw [← ht]
        exact hfold
      exact Except.noConfusion hcontra
    · intro p d1 d2 h1 h2
      by_contra hne
      have hfalse : d1.eqv d2 = false := by
        cases hE : d1.eqv d2 with
        | false => rfl
        | true => exact absurd hE hne
      rcases mergeFold_error (fun a b => ! a.eqv b) BErr.incompatibleDefault
        s.defaults o.defaults (Dict.update ([] : Dict Value) s.defaults) hod
        (fun j _ => update_nil_isSome s.defaults hsd j)
        ⟨p, d1, d2, h1, h2, by show (! d1.eqv d2) = true; rw [hfalse]; rfl⟩
        with ⟨p3, v13, v23, -, -, -, hfold⟩
      have hcontra : Except.ok dfl
          = Except.error (BErr.incompatibleDefault p3 v13 v23) := by
        rw [← hd]
        exact hfold
      exact Except.noConfusion hcontra
    · intro p a b h1 h2
      by_contra hne
      rcases mergeFold_error (fun a b => a != b) BErr.incompatibleDescription
        s.description o.description
        (Dict.update ([] : Dict String) s.description) hods
        (fun j _ => update_nil_isSome s.description hsds j)
        ⟨p, a, b, h1, h2, by show (a != b) = true; exact bne_iff_ne.mpr hne⟩
        with ⟨p3, v13, v23, -, -, -, hfold⟩
      have hcontra : Except.ok dsc
          = Except.error (BErr.incompatibleDescription p3 v13 v23) := by
        rw [← hds]
        exact hfold
      exact Except.noConfusion hcontra
    · rcases unionChoices_spec s.choices o.choices hsc hoc
        with ⟨merged, hueq, hchar⟩
      refine ⟨merged, hchar, ?_⟩
      rw [hueq] at hc
      exact hc

/-- First counterexample operand declaration: a Table Index parameter `s`
over a 1D table whose row keys are `"1..2"` and `"x"`. -/
def exU1decl : ParamDecl :=
  { types := [("s", "Table Index"), ("d", "Number")],
    free := Option.some ["s"],
    tables := Option.some [⟨"s", ["d"], [("1..2", ["1"]), ("x", ["2"])]⟩] }

/-- Second counterexample operand declaration: identical except the second
row key is `"y"`. -/
def exU2decl : ParamDecl :=
  { types := [("s", "Table Index"), ("d", "Number")],
    free := Option.some ["s"],
    tables := Option.some [⟨"s", ["d"], [("1..2", ["1"]), ("y", ["2"])]⟩] }

/-- The parameter set `exU1decl` constructs (choices for `s` sort
lexicographically because `"x"` holds no digits). -/
def exU1P : BOLTSParameters :=
  ⟨[("s", "Table Index"), ("d", "Number")], [], ["s"],
    [⟨"s", ["d"], [("1..2", [.num ⟨1, 0⟩]), ("x", [.num ⟨2, 0⟩])]⟩], [], [],
    ["s", "d"], [("s", ["1..2", "x"])], [("s", .str "")],
    Option.some [[.str "1..2"], [.str "x"]]⟩

/-- The parameter set `exU2decl` constructs. -/
def exU2P : BOLTSParameters :=
  ⟨[("s", "Table Index"), ("d", "Number")], [], ["s"],
    [⟨"s", ["d"], [("1..2", [.num ⟨1, 0⟩]), ("y", [.num ⟨2, 0⟩])]⟩], [], [],
    ["s", "d"], [("s", ["1..2", "y"])], [("s", .str "")],
    Option.some [[.str "1..2"], [.str "y"]]⟩

/-- Counterexample to C6 as stated: the operands are constructed parameter
sets with equal `types`, `defaults` and `description` maps — so no shared
parameter maps to different values in any of the three — yet `union`
does not return a merged instance: the intersected choice set for `s` is
exactly `{"1..2"}`, the re-sort selects the Numerical strategy (its regex
accepts `"1..2"`), and `Numerical.sort` raises `ValueError` because
`float("1..2")` is invalid. -/
theorem c6_union_sort_counterexample :
    mkBOLTSParameters exU1decl = Except.ok exU1P
    ∧ mkBOLTSParameters exU2decl = Except.ok exU2P
    ∧ (∀ p t1 t2, Dict.find? exU1P.types p = Option.some t1 →
        Dict.find? exU2P.types p = Option.some t2 → t1 = t2)
    ∧ (∀ p d1 d2, Dict.find? exU1P.defaults p = Option.some d1 →
        Dict.find? exU2P.defaults p = Option.some d2 → d1.eqv d2 = true)
    ∧ (∀ p a b, Dict.find? exU1P.description p = Option.some a →
        Dict.find? exU2P.description p = Option.some b → a = b)
    ∧ union exU1P exU2P = Except.error (BErr.valueError "invalid literal for float()") :=
  ⟨by decide, by decide, no_conflict_of_eq (by decide),
    eqv_no_conflict_of_eq (by decide), no_conflict_of_eq (by decide), by decide⟩

/-- The result of `union exU1P exU1P` (the self-union succeeds: the
intersected choice set `{"1..2","x"}` is not Numerical-applicable and
sorts lexicographically). -/
def exUU : BOLTSParameters :=
  ⟨[("d", "Number"), ("s", "Table Index")], [], ["s", "s"],
    [⟨"s", ["d"], [("1..2", [.num ⟨1, 0⟩]), ("x", [.num ⟨2, 0⟩])]⟩,
      ⟨"s", ["d"], [("1..2", [.num ⟨1, 0⟩]), ("x", [.num ⟨2, 0⟩])]⟩], [], [],
    ["s", "d"], [("s", ["1..2", "x"])], [("s", .str "")], Option.some [[]]⟩

theorem c6_union_conflicts_witness :
    exUU.literal
      = Dict.update (Dict.update ([] : Dict Value) exU1P.literal) exU1P.literal
    ∧ exUU.free = exU1P.free ++ exU1P.free
    ∧ exUU.tables = exU1P.tables ++ exU1P.tables
    ∧ exUU.tables2d = exU1P.tables2d ++ exU1P.tables2d := by
  have h := (c6_union_conflicts exU1P exU1P (by decide) (by decide) (by decide)
    (by decide) (by decide) (by decide) (by decide) (by decide)).2.2.2
    exUU (by decide)
  exact ⟨h.2.2.2.1, h.2.2.2.2.1, h.2.2.2.2.2.1, h.2.2.2.2.2.2.1⟩
